import Mathlib

/-!
# mqttlog: the MQTT logging backend (`backend.go`)

A shallow embedding of `MQTTBackend.Log` and of the library behaviour it relies on
(`encoding/json` for the `LogMessage` struct, `time.Time` JSON marshalling, the
`go-logging` record accessors and the MQTT client/token interface), followed by the
properties of the rendering and publishing path.

Conventions.
* A Go `string` / `[]byte` is a list of bytes, each byte a natural number below 256.
* The MQTT client is an arbitrary deterministic object with a state of type `σ`;
  every call on it is threaded through that state and recorded in a trace.
-/

namespace Mqttlog

/-! ## Strings and constants -/

/-- A Go string or byte slice, as its sequence of bytes. -/
abbrev GoString := List Nat

/-- Bytes of an ASCII literal. -/
def ascii (s : String) : GoString := s.toList.map Char.toNat

/-- StyleFormatted uses the existing logging format untouched, or uses the default if none
was specified. -/
def StyleFormatted : GoString := ascii "FORMATTED"

/-- StyleMinimal outputs only the message. -/
def StyleMinimal : GoString := ascii "MINIMAL"

/-- StyleJSON outputs the message as a JSON string for ease of parsing. -/
def StyleJSON : GoString := ascii "JSON"

/-! ## The logging framework's record (go-logging) -/

/-- The severity levels declared by go-logging, in declaration order (`CRITICAL = iota`).
Other values of the underlying `int`, for which `Level.String` panics, are outside the
model. -/
inductive Level where
  | CRITICAL | ERROR | WARNING | NOTICE | INFO | DEBUG
  deriving DecidableEq, Repr

/-- The method `Level.String`: the entry of `levelNames` for the level. -/
def Level.String : Level → GoString
  | .CRITICAL => ascii "CRITICAL"
  | .ERROR => ascii "ERROR"
  | .WARNING => ascii "WARNING"
  | .NOTICE => ascii "NOTICE"
  | .INFO => ascii "INFO"
  | .DEBUG => ascii "DEBUG"

/-- A `time.Time`, as the calendar reading it presents in its own zone (`Date`, `Clock`,
`Nanosecond`) together with that zone's offset in seconds east of UTC.  The monotonic
clock reading and the zone's name are not part of the model. -/
structure Time where
  year : Int
  month : Nat
  day : Nat
  hour : Nat
  minute : Nat
  second : Nat
  nsec : Nat
  offset : Int
  deriving DecidableEq, Repr

/-- The zero `time.Time`: January 1, year 1, 00:00:00.000000000 UTC. -/
def Time.zero : Time := ⟨1, 1, 1, 0, 0, 0, 0, 0⟩

/-- A `logging.Record`, as far as `Log` reads it: the exported fields `ID`, `Time`,
`Module`, `Level`, and the results of the two methods `Message()` and
`Formatted(calldepth)`. -/
structure Record where
  ID : Nat
  Time : Time
  Module : GoString
  Level : Level
  message : GoString
  formatted : Int → GoString

/-- The method `rec.Message()`. -/
def Record.Message (rec : Record) : GoString := rec.message

/-- The method `rec.Formatted(calldepth)`. -/
def Record.Formatted (rec : Record) (calldepth : Int) : GoString := rec.formatted calldepth

/-- Go addition on `int` (64-bit two's complement, wrapping). -/
def intAdd (a b : Int) : Int := (a + b + 2 ^ 63) % 2 ^ 64 - 2 ^ 63

/-! ## UTF-8 (package unicode/utf8) -/

/-- The constant `utf8.RuneError`, U+FFFD. -/
def RuneError : Nat := 0xFFFD

/-- Model of `utf8.DecodeRuneInString`: the first rune of `s` and its width in bytes;
`(RuneError, 1)` for a byte that does not start a well-formed encoding, `(RuneError, 0)`
for the empty string. -/
def DecodeRune : GoString → Nat × Nat
  | [] => (RuneError, 0)
  | s0 :: rest =>
    if s0 < 0x80 then (s0, 1)
    else if s0 < 0xC2 ∨ 0xF4 < s0 then (RuneError, 1)
    else if s0 < 0xE0 then
      match rest with
      | s1 :: _ =>
        if s1 < 0x80 ∨ 0xBF < s1 then (RuneError, 1)
        else ((s0 % 32) * 64 + s1 % 64, 2)
      | _ => (RuneError, 1)
    else if s0 < 0xF0 then
      match rest with
      | s1 :: s2 :: _ =>
        if s1 < (if s0 = 0xE0 then 0xA0 else 0x80) ∨ (if s0 = 0xED then 0x9F else 0xBF) < s1 then
          (RuneError, 1)
        else if s2 < 0x80 ∨ 0xBF < s2 then (RuneError, 1)
        else ((s0 % 16) * 4096 + (s1 % 64) * 64 + s2 % 64, 3)
      | _ => (RuneError, 1)
    else
      match rest with
      | s1 :: s2 :: s3 :: _ =>
        if s1 < (if s0 = 0xF0 then 0x90 else 0x80) ∨ (if s0 = 0xF4 then 0x8F else 0xBF) < s1 then
          (RuneError, 1)
        else if s2 < 0x80 ∨ 0xBF < s2 then (RuneError, 1)
        else if s3 < 0x80 ∨ 0xBF < s3 then (RuneError, 1)
        else ((s0 % 8) * 262144 + (s1 % 64) * 4096 + (s2 % 64) * 64 + s3 % 64, 4)
      | _ => (RuneError, 1)

/-- Model of `utf8.AppendRune`: the UTF-8 encoding of a rune; surrogates and values above
U+10FFFF are encoded as U+FFFD. -/
def EncodeRune (r : Nat) : GoString :=
  if r < 0x80 then [r]
  else if r < 0x800 then [0xC0 + r / 64, 0x80 + r % 64]
  else if (0xD800 ≤ r ∧ r ≤ 0xDFFF) ∨ 0x10FFFF < r then [0xEF, 0xBF, 0xBD]
  else if r < 0x10000 then [0xE0 + r / 4096, 0x80 + r / 64 % 64, 0x80 + r % 64]
  else [0xF0 + r / 262144, 0x80 + r / 4096 % 64, 0x80 + r / 64 % 64, 0x80 + r % 64]

/-! ## encoding/json: encoding -/

/-- The table `hex` of package encoding/json: the lower-case hexadecimal digit of `n`. -/
def hexDigit (n : Nat) : Nat := if n < 10 then 48 + n else 87 + n

/-- The table `htmlSafeSet`: the ASCII bytes that are copied unescaped into a JSON string
when HTML escaping is on (the default of `json.Marshal`). -/
def htmlSafe (b : Nat) : Bool :=
  decide (0x20 ≤ b ∧ b < 0x80 ∧ b ≠ 0x22 ∧ b ≠ 0x26 ∧ b ≠ 0x3C ∧ b ≠ 0x3E ∧ b ≠ 0x5C)

/-- The escape sequence `appendString` writes for an ASCII byte outside `htmlSafeSet`. -/
def escapeByte (b : Nat) : GoString :=
  if b = 0x5C ∨ b = 0x22 then [0x5C, b]
  else if b = 0x08 then [0x5C, 0x62]
  else if b = 0x0C then [0x5C, 0x66]
  else if b = 0x0A then [0x5C, 0x6E]
  else if b = 0x0D then [0x5C, 0x72]
  else if b = 0x09 then [0x5C, 0x74]
  else [0x5C, 0x75, 0x30, 0x30, hexDigit (b / 16), hexDigit (b % 16)]

/-- The loop of `appendString` (between the two quotes); `fuel` bounds the number of
iterations, one per rune of the source. -/
def appendStringLoop : Nat → GoString → GoString
  | 0, _ => []
  | _ + 1, [] => []
  | fuel + 1, b :: rest =>
    if b < 0x80 then
      if htmlSafe b then b :: appendStringLoop fuel rest
      else escapeByte b ++ appendStringLoop fuel rest
    else
      let d := DecodeRune (b :: rest)
      if d.1 = RuneError ∧ d.2 = 1 then
        [0x5C, 0x75, 0x66, 0x66, 0x66, 0x64] ++ appendStringLoop fuel rest
      else if d.1 = 0x2028 ∨ d.1 = 0x2029 then
        [0x5C, 0x75, 0x32, 0x30, 0x32, hexDigit (d.1 % 16)]
          ++ appendStringLoop fuel (rest.drop (d.2 - 1))
      else
        (b :: rest).take d.2 ++ appendStringLoop fuel (rest.drop (d.2 - 1))

/-- Model of `appendString` with `escapeHTML = true`: the JSON string literal for `src`. -/
def appendString (src : GoString) : GoString :=
  0x22 :: (appendStringLoop src.length src ++ [0x22])

/-- The digit loop of `strconv.FormatUint` in base 10, most significant digit first. -/
def formatDigits : Nat → Nat → GoString → GoString
  | 0, _, acc => acc
  | fuel + 1, u, acc =>
    if u < 10 then (48 + u) :: acc
    else formatDigits fuel (u / 10) ((48 + u % 10) :: acc)

/-- Model of `strconv.FormatUint(u, 10)`. -/
def FormatUint (u : Nat) : GoString := formatDigits (u + 1) u []

/-- Model of `strconv.FormatInt(i, 10)`. -/
def FormatInt (i : Int) : GoString :=
  if i < 0 then 0x2D :: FormatUint i.natAbs else FormatUint i.natAbs

/-! ## time.Time as JSON (RFC 3339 with nanoseconds) -/

/-- Model of `appendInt` of package time: `x` in decimal, zero-padded to `width` digits,
with a leading minus sign when negative. -/
def appendInt (x : Int) (width : Nat) : GoString :=
  (if x < 0 then [0x2D] else [])
    ++ List.replicate (width - (FormatUint x.natAbs).length) 0x30 ++ FormatUint x.natAbs

/-- Removes the trailing bytes `'0'` of a digit string. -/
def trimZeros (ds : GoString) : GoString := (ds.reverse.dropWhile (· = 0x30)).reverse

/-- Model of `appendNano` for the layout `.999999999`: nothing when the nanosecond is
zero, otherwise a dot and the nine-digit nanosecond without its trailing zeros. -/
def appendNano (nsec : Nat) : GoString :=
  if nsec = 0 then [] else 0x2E :: trimZeros (appendInt nsec 9)

/-- Go integer division by a positive constant (truncated toward zero). -/
def quoInt (a : Int) (b : Nat) : Int :=
  if a < 0 then -(((-a).toNat / b : Nat) : Int) else ((a.toNat / b : Nat) : Int)

/-- Model of `Time.appendFormatRFC3339(b, true)`. -/
def Time.appendFormatRFC3339 (t : Time) : GoString :=
  appendInt t.year 4 ++ [0x2D] ++ appendInt t.month 2 ++ [0x2D] ++ appendInt t.day 2 ++ [0x54]
    ++ appendInt t.hour 2 ++ [0x3A] ++ appendInt t.minute 2 ++ [0x3A] ++ appendInt t.second 2
    ++ appendNano t.nsec
    ++ (if t.offset = 0 then [0x5A]
        else
          let zone := quoInt t.offset 60
          (if zone < 0 then [0x2D] else [0x2B])
            ++ appendInt (zone.natAbs / 60 : Nat) 2 ++ [0x3A] ++ appendInt (zone.natAbs % 60 : Nat) 2)

/-- The errors `json.Marshal` can return for a `LogMessage`: both come from
`Time.MarshalJSON`. -/
inductive MarshalError where
  /-- Text: `Time.MarshalJSON: year outside of range [0,9999]`. -/
  | yearOutsideOfRange
  /-- Text: `Time.MarshalJSON: timezone hour outside of range [0,23]`. -/
  | timezoneHourOutsideOfRange
  deriving DecidableEq, Repr

/-- Model of `Time.MarshalJSON` (Go 1.20 and later): the quoted RFC 3339 text, or an error
for a time that has no strict RFC 3339 form, that is a year outside 0 to 9999 or a zone
offset of 24 hours or more. -/
def Time.MarshalJSON (t : Time) : Except MarshalError GoString :=
  if t.year < 0 ∨ 9999 < t.year then .error .yearOutsideOfRange
  else if t.offset ≠ 0 ∧ 24 ≤ (quoInt t.offset 60).natAbs / 60 then
    .error .timezoneHourOutsideOfRange
  else .ok (0x22 :: (t.appendFormatRFC3339 ++ [0x22]))

/-! ## The struct `LogMessage` and its JSON encoding -/

/-- LogMessage is a struct to represent a full log entry, used to marshall into JSON
when StyleJSON is used. -/
structure LogMessage where
  ID : Nat
  PID : Int
  Time : Time
  Level : GoString
  Module : GoString
  Program : GoString
  Message : GoString
  LongFile : GoString
  ShortFile : GoString
  CallPath : GoString
  deriving DecidableEq

/-- The zero value of `LogMessage`. -/
def LogMessage.zero : LogMessage := ⟨0, 0, Time.zero, [], [], [], [], [], [], []⟩

/-- The `omitempty` encoding of a string field: omitted when `len == 0`. -/
def omitEmptyString (s : GoString) : Option GoString :=
  if s.length = 0 then none else some (appendString s)

/-- The fields of a `LogMessage` in declaration order, each with its JSON key (from the
struct tag) and its encoded value, `none` when `omitempty` drops the field
(`isEmptyValue`: zero for integers, length zero for strings, never for a struct such as
`time.Time`). -/
def structFields (msg : LogMessage) (time : GoString) : List (GoString × Option GoString) :=
  [ (ascii "id", if msg.ID = 0 then none else some (FormatUint msg.ID)),
    (ascii "pid", if msg.PID = 0 then none else some (FormatInt msg.PID)),
    (ascii "time", some time),
    (ascii "level", omitEmptyString msg.Level),
    (ascii "module", omitEmptyString msg.Module),
    (ascii "program", omitEmptyString msg.Program),
    (ascii "message", omitEmptyString msg.Message),
    (ascii "longFileName", omitEmptyString msg.LongFile),
    (ascii "shortFileName", omitEmptyString msg.ShortFile),
    (ascii "callPath", omitEmptyString msg.CallPath) ]

/-- The loop of the struct encoder: `next` is the byte written before the next emitted
field, an opening brace at first and a comma afterwards. -/
def structEncode : List (GoString × Option GoString) → Nat → GoString
  | [], next => if next = 0x7B then [0x7B, 0x7D] else [0x7D]
  | (_, none) :: fs, next => structEncode fs next
  | (name, some v) :: fs, next =>
    next :: (0x22 :: name ++ [0x22, 0x3A]) ++ v ++ structEncode fs 0x2C

/-- Model of `json.Marshal` at type `LogMessage`. -/
def Marshal (msg : LogMessage) : Except MarshalError GoString :=
  match msg.Time.MarshalJSON with
  | .error e => .error e
  | .ok time => .ok (structEncode (structFields msg time) 0x7B)

/-! ## encoding/json: decoding -/

/-- The byte is an ASCII decimal digit. -/
def isDigit (c : Nat) : Bool := decide (0x30 ≤ c ∧ c ≤ 0x39)

/-- The value of a digit string read in base 10 (no validation). -/
def digitsVal (ds : GoString) : Nat := ds.foldl (fun acc c => acc * 10 + (c - 0x30)) 0

/-- The value of a hexadecimal digit, as `getu4` reads it. -/
def hexVal (c : Nat) : Option Nat :=
  if 0x30 ≤ c ∧ c ≤ 0x39 then some (c - 0x30)
  else if 0x61 ≤ c ∧ c ≤ 0x66 then some (c - 0x61 + 10)
  else if 0x41 ≤ c ∧ c ≤ 0x46 then some (c - 0x41 + 10)
  else none

/-- Model of `getu4`: the code unit of a leading escape `\uXXXX`, `none` where Go
returns -1. -/
def getu4 : GoString → Option Nat
  | 0x5C :: 0x75 :: a :: b :: c :: d :: _ =>
    match hexVal a, hexVal b, hexVal c, hexVal d with
    | some x, some y, some z, some w => some (x * 4096 + y * 256 + z * 16 + w)
    | _, _, _, _ => none
  | _ => none

/-- Model of the string scanner followed by `unquoteBytes`: reads a JSON string literal
whose opening quote has been consumed, and returns the decoded bytes and the input left
after the closing quote.  Escapes are decoded, surrogate pairs combined, and malformed
UTF-8 or lone surrogates become U+FFFD. -/
def unquoteLoop : Nat → GoString → Option (GoString × GoString)
  | 0, _ => none
  | _ + 1, [] => none
  | fuel + 1, c :: rest =>
    if c = 0x22 then some ([], rest)
    else if c = 0x5C then
      match rest with
      | [] => none
      | e :: rest1 =>
        let simple (b : Nat) : Option (GoString × GoString) :=
          (unquoteLoop fuel rest1).map (fun r => (b :: r.1, r.2))
        if e = 0x22 ∨ e = 0x5C ∨ e = 0x2F then simple e
        else if e = 0x62 then simple 0x08
        else if e = 0x66 then simple 0x0C
        else if e = 0x6E then simple 0x0A
        else if e = 0x72 then simple 0x0D
        else if e = 0x74 then simple 0x09
        else if e = 0x75 then
          match getu4 (c :: rest) with
          | none => none
          | some rr =>
            let rest2 := rest1.drop 4
            if 0xD800 ≤ rr ∧ rr ≤ 0xDFFF then
              match getu4 rest2 with
              | some rr1 =>
                if rr < 0xDC00 ∧ 0xDC00 ≤ rr1 ∧ rr1 ≤ 0xDFFF then
                  (unquoteLoop fuel (rest2.drop 6)).map (fun r =>
                    (EncodeRune ((rr - 0xD800) * 1024 + (rr1 - 0xDC00) + 0x10000) ++ r.1, r.2))
                else (unquoteLoop fuel rest2).map (fun r => (EncodeRune RuneError ++ r.1, r.2))
              | none => (unquoteLoop fuel rest2).map (fun r => (EncodeRune RuneError ++ r.1, r.2))
            else (unquoteLoop fuel rest2).map (fun r => (EncodeRune rr ++ r.1, r.2))
        else none
    else if c < 0x20 then none
    else if c < 0x80 then (unquoteLoop fuel rest).map (fun r => (c :: r.1, r.2))
    else
      let d := DecodeRune (c :: rest)
      (unquoteLoop fuel (rest.drop (d.2 - 1))).map (fun r => (EncodeRune d.1 ++ r.1, r.2))

/-- A JSON value of the two kinds that occur in an encoded `LogMessage`: a string (its raw
text between the quotes and its decoded bytes) or an integer literal (sign and digits). -/
inductive JValue where
  | str (raw decoded : GoString)
  | num (neg : Bool) (digits : GoString)
  deriving DecidableEq

/-- Skips JSON white space (space, tab, carriage return, line feed). -/
def skipSpace (s : GoString) : GoString :=
  s.dropWhile (fun c => c = 0x20 ∨ c = 0x09 ∨ c = 0x0D ∨ c = 0x0A)

/-- Reads the digits of an integer literal: at least one digit, no leading zero before
another digit, and no fraction or exponent after them. -/
def parseDigits (s : GoString) : Option (GoString × GoString) :=
  let ds := s.takeWhile isDigit
  let rest := s.dropWhile isDigit
  if ds = [] then none
  else if ds.head? = some 0x30 ∧ 1 < ds.length then none
  else if rest.head? = some 0x2E ∨ rest.head? = some 0x65 ∨ rest.head? = some 0x45 then none
  else some (ds, rest)

/-- Reads one JSON value, a string or an integer literal, and returns it with the input
left after it.  Other kinds of value are outside the model and rejected. -/
def parseValue (s : GoString) : Option (JValue × GoString) :=
  match s with
  | 0x22 :: s1 =>
    (unquoteLoop (s1.length + 1) s1).map (fun r =>
      (JValue.str (s1.take (s1.length - r.2.length - 1)) r.1, r.2))
  | 0x2D :: s1 => (parseDigits s1).map (fun r => (JValue.num true r.1, r.2))
  | _ => (parseDigits s).map (fun r => (JValue.num false r.1, r.2))

/-- Reads the members of an object, from the first key to the closing brace. -/
def parseMembers : Nat → GoString → Option (List (GoString × JValue) × GoString)
  | 0, _ => none
  | fuel + 1, s =>
    match s with
    | 0x22 :: s1 =>
      match unquoteLoop (s1.length + 1) s1 with
      | none => none
      | some (key, s2) =>
        match skipSpace s2 with
        | 0x3A :: s3 =>
          match parseValue (skipSpace s3) with
          | none => none
          | some (v, s4) =>
            match skipSpace s4 with
            | 0x2C :: s5 =>
              (parseMembers fuel (skipSpace s5)).map (fun r => ((key, v) :: r.1, r.2))
            | 0x7D :: s5 => some ([(key, v)], s5)
            | _ => none
        | _ => none
    | _ => none

/-- Reads a whole JSON text that is one object with string and integer members; returns
its members in order. -/
def parseObject (s : GoString) : Option (List (GoString × JValue)) :=
  match skipSpace s with
  | 0x7B :: s1 =>
    match skipSpace s1 with
    | 0x7D :: s2 => if skipSpace s2 = [] then some [] else none
    | s2 =>
      match parseMembers s.length s2 with
      | some (ms, r) => if skipSpace r = [] then some ms else none
      | none => none
  | _ => none

/-! ## time.Time from JSON -/

/-- The closure `parseUint` of `parseRFC3339`: a digit string read in base 10 and checked
against a range. -/
def parseUintRange (s : GoString) (min max : Nat) : Option Nat :=
  if s.all isDigit ∧ min ≤ digitsVal s ∧ digitsVal s ≤ max then some (digitsVal s) else none

/-- Model of `isLeap`. -/
def isLeap (year : Int) : Bool := decide (year % 4 = 0 ∧ (year % 100 ≠ 0 ∨ year % 400 = 0))

/-- Model of `daysIn`: the number of days of a month of a year. -/
def daysIn (month : Nat) (year : Int) : Nat :=
  if month = 2 ∧ isLeap year = true then 29
  else [31, 28, 31, 30, 31, 30, 31, 31, 30, 31, 30, 31].getD (month - 1) 0

/-- The block `Parse the fractional second` of `parseRFC3339`: given the text after the
seconds, the nanosecond (`parseNanoseconds`, at most nine digits count) and the text after
the fraction; without a dot followed by a digit, nanosecond zero and the text unchanged. -/
def parseFraction (s : GoString) : Nat × GoString :=
  if s.head? = some 0x2E ∧ (s.drop 1).head?.any isDigit = true then
    let frac := (s.drop 1).takeWhile isDigit
    (digitsVal (frac.take 9) * 10 ^ (9 - (frac.take 9).length), s.drop (1 + frac.length))
  else (0, s)

/-- The block `Parse the time zone` of `parseRFC3339`: the offset in seconds east of UTC
written as `Z` or as a sign, two digits of hours, a colon and two digits of minutes. -/
def parseZone (s : GoString) : Option Int :=
  if s = [0x5A] then some 0
  else if s.length ≠ 6 then none
  else
    match parseUintRange ((s.drop 1).take 2) 0 23, parseUintRange ((s.drop 4).take 2) 0 59 with
    | some hr, some mm =>
      if ¬ ((s.getD 0 0 = 0x2D ∨ s.getD 0 0 = 0x2B) ∧ s.getD 3 0 = 0x3A) then none
      else
        let zoneOffset : Int := ((hr * 60 + mm) * 60 : Nat)
        some (if s.getD 0 0 = 0x2D then -zoneOffset else zoneOffset)
    | _, _ => none

/-- Model of `parseRFC3339`, the parser `Time.UnmarshalJSON` applies to the text between
the quotes.  Texts that only the lenient fallback `Parse(RFC3339, _)` accepts are
rejected here. -/
def parseRFC3339 (s : GoString) : Option Time :=
  if s.length < 19 then none
  else
    match parseUintRange (s.take 4) 0 9999, parseUintRange ((s.drop 5).take 2) 1 12 with
    | some year, some month =>
      match parseUintRange ((s.drop 8).take 2) 1 (daysIn month year),
        parseUintRange ((s.drop 11).take 2) 0 23, parseUintRange ((s.drop 14).take 2) 0 59,
        parseUintRange ((s.drop 17).take 2) 0 59 with
      | some day, some hour, some min, some sec =>
        if ¬ (s.getD 4 0 = 0x2D ∧ s.getD 7 0 = 0x2D ∧ s.getD 10 0 = 0x54 ∧ s.getD 13 0 = 0x3A
            ∧ s.getD 16 0 = 0x3A) then none
        else
          match parseZone (parseFraction (s.drop 19)).2 with
          | some offset =>
            some ⟨year, month, day, hour, min, sec, (parseFraction (s.drop 19)).1, offset⟩
          | none => none
      | _, _, _, _ => none
    | _, _ => none

/-! ## Decoding into a `LogMessage` -/

/-- ASCII case folding of a key, as the decoder's field lookup compares names. -/
def foldName (s : GoString) : GoString :=
  s.map (fun c => if 0x41 ≤ c ∧ c ≤ 0x5A then c + 0x20 else c)

/-- Stores one decoded member into the struct: the field is found by its JSON key, an
unknown key is ignored, and a value of the wrong kind or out of range is an error. -/
def setField (msg : LogMessage) (key : GoString) (v : JValue) : Option LogMessage :=
  let k := foldName key
  let string (f : GoString → LogMessage) : Option LogMessage :=
    match v with
    | .str _ decoded => some (f decoded)
    | .num _ _ => none
  if k = foldName (ascii "id") then
    match v with
    | .num false ds => if digitsVal ds < 2 ^ 64 then some { msg with ID := digitsVal ds } else none
    | _ => none
  else if k = foldName (ascii "pid") then
    match v with
    | .num neg ds =>
      let i : Int := if neg then -(digitsVal ds : Int) else (digitsVal ds : Int)
      if -(2 ^ 63) ≤ i ∧ i < 2 ^ 63 then some { msg with PID := i } else none
    | _ => none
  else if k = foldName (ascii "time") then
    match v with
    | .str raw _ => (parseRFC3339 raw).map (fun t => { msg with Time := t })
    | _ => none
  else if k = foldName (ascii "level") then string (fun s => { msg with Level := s })
  else if k = foldName (ascii "module") then string (fun s => { msg with Module := s })
  else if k = foldName (ascii "program") then string (fun s => { msg with Program := s })
  else if k = foldName (ascii "message") then string (fun s => { msg with Message := s })
  else if k = foldName (ascii "longFileName") then string (fun s => { msg with LongFile := s })
  else if k = foldName (ascii "shortFileName") then string (fun s => { msg with ShortFile := s })
  else if k = foldName (ascii "callPath") then string (fun s => { msg with CallPath := s })
  else some msg

/-- Stores the members of an object in order. -/
def setFields : LogMessage → List (GoString × JValue) → Option LogMessage
  | msg, [] => some msg
  | msg, (key, v) :: ms =>
    match setField msg key v with
    | none => none
    | some msg1 => setFields msg1 ms

/-- Model of `json.Unmarshal(data, &msg)` for a zero `msg` of type `LogMessage`. -/
def Unmarshal (data : GoString) : Option LogMessage :=
  match parseObject data with
  | none => none
  | some ms => setFields LogMessage.zero ms

/-- The keys of a parsed object, in order. -/
def objectKeys (ms : List (GoString × JValue)) : List GoString := ms.map Prod.fst

/-! ## Well-formed input -/

/-- The string with every byte that does not start a well-formed UTF-8 encoding replaced
by the encoding of U+FFFD; `fuel` bounds the number of runes. -/
def toValidLoop : Nat → GoString → GoString
  | 0, _ => []
  | _ + 1, [] => []
  | fuel + 1, b :: rest =>
    let d := DecodeRune (b :: rest)
    if d.1 = RuneError ∧ d.2 = 1 then [0xEF, 0xBF, 0xBD] ++ toValidLoop fuel rest
    else (b :: rest).take d.2 ++ toValidLoop fuel (rest.drop (d.2 - 1))

/-- The string as a JSON round trip returns it: malformed bytes replaced by U+FFFD. -/
def toValidUTF8 (s : GoString) : GoString := toValidLoop s.length s

/-- The loop of `utf8.ValidString`. -/
def validLoop : Nat → GoString → Bool
  | 0, s => s = []
  | _ + 1, [] => true
  | fuel + 1, b :: rest =>
    let d := DecodeRune (b :: rest)
    if d.1 = RuneError ∧ d.2 = 1 then false
    else validLoop fuel (rest.drop (d.2 - 1))

/-- Model of `utf8.ValidString`: the string is well-formed UTF-8. -/
def ValidString (s : GoString) : Bool := validLoop s.length s

/-- The calendar reading is one a `time.Time` can present: month 1 to 12, a day of that
month, a time of day, and a nanosecond below one second. -/
def Time.WellFormed (t : Time) : Prop :=
  1 ≤ t.month ∧ t.month ≤ 12 ∧ 1 ≤ t.day ∧ t.day ≤ daysIn t.month t.year
    ∧ t.hour ≤ 23 ∧ t.minute ≤ 59 ∧ t.second ≤ 59 ∧ t.nsec ≤ 999999999

instance (t : Time) : Decidable t.WellFormed := by
  unfold Time.WellFormed; infer_instance

/-! ## The MQTT client and the backend -/

/-- An `MQTT.Client` together with the `MQTT.Token` it hands out, as a deterministic object
over a state `σ`: `Publish` returns a token of type `τ`; the token's `WaitTimeout` and
`Wait` return a flag, `Error` returns the token's error (`none` is `nil`). -/
structure Client (σ τ ε : Type) where
  Publish : GoString → Nat → Bool → GoString → σ → τ × σ
  WaitTimeout : τ → Int → σ → Bool × σ
  Wait : τ → σ → Bool × σ
  Error : τ → σ → Option ε × σ

/-- One call made on the client or on a token, with its arguments and result. -/
inductive Event (ε : Type) where
  | publish (topic : GoString) (qos : Nat) (retained : Bool) (payload : GoString)
  | waitTimeout (d : Int) (completed : Bool)
  | wait (completed : Bool)
  | error (reported : Option ε)
  deriving DecidableEq

/-- MQTTBackend sends log messages to the nominated MQTT broker. -/
structure MQTTBackend (σ τ ε : Type) where
  broker : Client σ τ ε
  topic : GoString
  style : GoString

/-- NewBackend creates a new MQTTBackend. -/
def NewBackend {σ τ ε : Type} (brokerClient : Client σ τ ε) (topic style : GoString) :
    MQTTBackend σ τ ε :=
  { broker := brokerClient, topic := topic, style := style }

/-- The value of Go type `error` that `Log` returns when it is not `nil`. -/
inductive LogError (ε : Type) where
  | marshal (e : MarshalError)
  | token (e : ε)
  deriving DecidableEq

/-- The result of one call of `Log`: the returned error (`none` is `nil`), the calls made
on the client and its token in order, and the client's final state. -/
structure Outcome (σ ε : Type) where
  ret : Option (LogError ε)
  trace : List (Event ε)
  world : σ

/-- The constant `time.Second`, in nanoseconds. -/
def Second : Int := 1000000000

/-- The `switch b.style` statement of `Log` (source lines 32 to 50): the message to
publish, or the error of `json.Marshal` on which `Log` returns at once. -/
def MQTTBackend.render {σ τ ε : Type} (b : MQTTBackend σ τ ε) (calldepth : Int)
    (rec : Record) : Except MarshalError GoString :=
  if b.style = StyleJSON then
    let msg : LogMessage :=
      { LogMessage.zero with
        ID := rec.ID
        Time := rec.Time
        Message := rec.Message
        Level := rec.Level.String
        Module := rec.Module }
    match Marshal msg with
    | .error err => .error err
    | .ok mb => .ok mb
  else if b.style = StyleMinimal then .ok rec.Message
  else .ok (rec.Formatted (intAdd calldepth 1))

/-- Log implements the logging.Backend interface. -/
def MQTTBackend.Log {σ τ ε : Type} (b : MQTTBackend σ τ ε) (_level : Level) (calldepth : Int)
    (rec : Record) (w : σ) : Outcome σ ε :=
  match b.render calldepth rec with
  | .error err => { ret := some (.marshal err), trace := [], world := w }
  | .ok message =>
    let (token, w1) := b.broker.Publish b.topic 0 false message w
    let (done1, w2) := b.broker.WaitTimeout token (Second * 5) w1
    let (done2, w3) := b.broker.Wait token w2
    let (err1, w4) := b.broker.Error token w3
    let calls : List (Event ε) :=
      [.publish b.topic 0 false message, .waitTimeout (Second * 5) done1, .wait done2,
        .error err1]
    match err1 with
    | some _ =>
      let (err2, w5) := b.broker.Error token w4
      { ret := err2.map .token, trace := calls ++ [.error err2], world := w5 }
    | none => { ret := none, trace := calls, world := w4 }

/-- The `LogMessage` that `Log` builds from a record under `StyleJSON`: the five fields
`ID`, `Time`, `Message`, `Level`, `Module` are set, the others keep their zero value. -/
def entryOf (rec : Record) : LogMessage :=
  { LogMessage.zero with
    ID := rec.ID
    Time := rec.Time
    Message := rec.Message
    Level := rec.Level.String
    Module := rec.Module }

/-- Serializing the record's entry fails. -/
def serializationFails (rec : Record) : Bool :=
  match Marshal (entryOf rec) with
  | .error _ => true
  | .ok _ => false

/-! ## Observations on a trace -/

/-- The payloads of the `Publish` calls of a trace, in order. -/
def publishedPayloads {ε : Type} : List (Event ε) → List GoString
  | [] => []
  | .publish _ _ _ payload :: es => payload :: publishedPayloads es
  | _ :: es => publishedPayloads es

/-- The number of `Publish` calls of a trace. -/
def publishCount {ε : Type} (tr : List (Event ε)) : Nat := (publishedPayloads tr).length

/-- The errors reported by the `Error()` calls of a trace, in order. -/
def reportedErrors {ε : Type} : List (Event ε) → List (Option ε)
  | [] => []
  | .error e :: es => e :: reportedErrors es
  | _ :: es => reportedErrors es

/-! ## Reading back what the encoder wrote -/

/-- Text that a JSON string literal carries verbatim: ASCII without control bytes, quote
or backslash. -/
def PlainText (s : GoString) : Prop :=
  ∀ c ∈ s, 0x20 ≤ c ∧ c < 0x80 ∧ c ≠ 0x22 ∧ c ≠ 0x5C

instance (s : GoString) : Decidable (PlainText s) := by
  unfold PlainText; infer_instance

/-- The text `v` is read by the value reader as `jv`, before any member separator. -/
def Encodes (v : GoString) (jv : JValue) : Prop :=
  ∀ rest : GoString, (rest.head? = some 0x2C ∨ rest.head? = some 0x7D) →
    parseValue (v ++ rest) = some (jv, rest) ∧ skipSpace (v ++ rest) = v ++ rest

/-- The members that reading back an encoded field list yields. -/
inductive Renders : List (GoString × Option GoString) → List (GoString × JValue) → Prop where
  | nil : Renders [] []
  | skip (name : GoString) {fs : List (GoString × Option GoString)}
      {ms : List (GoString × JValue)} : Renders fs ms → Renders ((name, none) :: fs) ms
  | emit {name v : GoString} {jv : JValue} {fs : List (GoString × Option GoString)}
      {ms : List (GoString × JValue)} : PlainText name → Encodes v jv → Renders fs ms →
      Renders ((name, some v) :: fs) ((name, jv) :: ms)

/-- The member read back for a string field under `omitempty`: none for the empty string,
otherwise the key with the literal's raw text and its decoded bytes. -/
def stringMember (key s : GoString) : List (GoString × JValue) :=
  if s.length = 0 then [] else [(key, .str (appendStringLoop s.length s) (toValidUTF8 s))]

/-- The members read back from the encoding of a `LogMessage`, in order. -/
def decodedMembers (msg : LogMessage) : List (GoString × JValue) :=
  (if msg.ID = 0 then [] else [(ascii "id", .num false (FormatUint msg.ID))])
    ++ (if msg.PID = 0 then []
        else [(ascii "pid", .num (decide (msg.PID < 0)) (FormatUint msg.PID.natAbs))])
    ++ [(ascii "time", .str msg.Time.appendFormatRFC3339 msg.Time.appendFormatRFC3339)]
    ++ stringMember (ascii "level") msg.Level
    ++ stringMember (ascii "module") msg.Module
    ++ stringMember (ascii "program") msg.Program
    ++ stringMember (ascii "message") msg.Message
    ++ stringMember (ascii "longFileName") msg.LongFile
    ++ stringMember (ascii "shortFileName") msg.ShortFile
    ++ stringMember (ascii "callPath") msg.CallPath

/-- What a subscriber obtains by decoding each published payload of a trace into a
`LogMessage`. -/
def readBack {ε : Type} (tr : List (Event ε)) : List (Option LogMessage) :=
  (publishedPayloads tr).map Unmarshal

/-- The keys of the object in each published payload of a trace. -/
def publishedKeys {ε : Type} (tr : List (Event ε)) : List (Option (List GoString)) :=
  (publishedPayloads tr).map (fun p => (parseObject p).map objectKeys)

/-- The JSON keys of the `LogMessage` fields that `Log` sets. -/
def populatedKeys : List GoString :=
  [ascii "id", ascii "time", ascii "level", ascii "module", ascii "message"]

/-- The JSON keys of the `LogMessage` fields that `Log` leaves at their zero value. -/
def unpopulatedKeys : List GoString :=
  [ascii "pid", ascii "program", ascii "longFileName", ascii "shortFileName", ascii "callPath"]

/-! ## Test doubles used by the concrete checks -/

/-- A client whose token reports the error stored in the state and whose waits report
the given flags; the state is left unchanged by every call. -/
def constClient (timedOut : Bool) : Client (Option Nat) Unit Nat where
  Publish := fun _ _ _ _ w => ((), w)
  WaitTimeout := fun _ _ w => (!timedOut, w)
  Wait := fun _ w => (true, w)
  Error := fun _ w => (w, w)

/-- A client whose token reports first an error and then, asked again, another value:
the state counts the `Error()` calls made so far. -/
def flakyClient (first second : Option Nat) : Client Nat Unit Nat where
  Publish := fun _ _ _ _ w => ((), w)
  WaitTimeout := fun _ _ w => (true, w)
  Wait := fun _ w => (true, w)
  Error := fun _ w => (if w = 0 then first else second, w + 1)

/-- The record of the specification's scenarios: id 42, level INFO, module `core`. -/
def sampleRecord (message : GoString) (t : Time) : Record :=
  { ID := 42, Time := t, Module := ascii "core", Level := .INFO, message := message,
    formatted := fun d => ascii "12:00:00 core INFO " ++ message ++ FormatInt d }

/-- A time stamp: 2017-03-04T05:06:07.5+01:00. -/
def sampleTime : Time := ⟨2017, 3, 4, 5, 6, 7, 500000000, 3600⟩

/-- A time stamp in year 10000, which has no RFC 3339 form. -/
def farTime : Time := ⟨10000, 1, 1, 0, 0, 0, 0, 0⟩

/-! # Properties -/

/-! ## The switch statement -/

theorem render_json {σ τ ε : Type} (b : MQTTBackend σ τ ε) (d : Int) (rec : Record)
    (h : b.style = StyleJSON) : b.render d rec = Marshal (entryOf rec) := by
  unfold MQTTBackend.render
  rw [if_pos h]
  show (match Marshal (entryOf rec) with
    | .error err => .error err
    | .ok mb => .ok mb) = Marshal (entryOf rec)
  cases Marshal (entryOf rec) <;> rfl

theorem styleMinimal_ne_styleJSON : StyleMinimal ≠ StyleJSON := by decide

theorem render_minimal {σ τ ε : Type} (b : MQTTBackend σ τ ε) (d : Int) (rec : Record)
    (h : b.style = StyleMinimal) : b.render d rec = .ok rec.Message := by
  unfold MQTTBackend.render
  rw [if_neg (by rw [h]; exact styleMinimal_ne_styleJSON), if_pos h]

theorem render_default {σ τ ε : Type} (b : MQTTBackend σ τ ε) (d : Int) (rec : Record)
    (hm : b.style ≠ StyleMinimal) (hj : b.style ≠ StyleJSON) :
    b.render d rec = .ok (rec.Formatted (intAdd d 1)) := by
  unfold MQTTBackend.render
  rw [if_neg hj, if_neg hm]

/-- The calls `Log` makes once the message is rendered, and what it returns. -/
theorem log_of_render_ok {σ τ ε : Type} (b : MQTTBackend σ τ ε) (level : Level) (d : Int)
    (rec : Record) (w : σ) (message : GoString) (h : b.render d rec = .ok message) :
    let p := b.broker.Publish b.topic 0 false message w
    let r1 := b.broker.WaitTimeout p.1 (Second * 5) p.2
    let r2 := b.broker.Wait p.1 r1.2
    let r3 := b.broker.Error p.1 r2.2
    let r4 := b.broker.Error p.1 r3.2
    (r3.1 = none →
        b.Log level d rec w =
          { ret := none,
            trace := [.publish b.topic 0 false message, .waitTimeout (Second * 5) r1.1,
              .wait r2.1, .error r3.1],
            world := r3.2 })
      ∧ (r3.1 ≠ none →
        b.Log level d rec w =
          { ret := r4.1.map .token,
            trace := [.publish b.topic 0 false message, .waitTimeout (Second * 5) r1.1,
              .wait r2.1, .error r3.1, .error r4.1],
            world := r4.2 }) := by
  intro p r1 r2 r3 r4
  have hL : b.Log level d rec w =
      (match r3.1 with
        | some _ =>
          { ret := r4.1.map .token,
            trace := [.publish b.topic 0 false message, .waitTimeout (Second * 5) r1.1,
              .wait r2.1, .error r3.1] ++ [.error r4.1],
            world := r4.2 }
        | none =>
          { ret := none,
            trace := [.publish b.topic 0 false message, .waitTimeout (Second * 5) r1.1,
              .wait r2.1, .error r3.1],
            world := r3.2 } : Outcome σ ε) := by
    unfold MQTTBackend.Log
    rw [h]
    try rfl
  constructor
  · intro h3
    rw [hL, h3]
  · intro h3
    rw [hL]
    cases h3e : r3.1 with
    | none => exact absurd h3e h3
    | some e => rfl

theorem log_of_render_error {σ τ ε : Type} (b : MQTTBackend σ τ ε) (level : Level) (d : Int)
    (rec : Record) (w : σ) (err : MarshalError) (h : b.render d rec = .error err) :
    b.Log level d rec w = { ret := some (.marshal err), trace := [], world := w } := by
  unfold MQTTBackend.Log
  rw [h]
  try rfl

theorem publishedPayloads_of_render {σ τ ε : Type} (b : MQTTBackend σ τ ε) (level : Level)
    (d : Int) (rec : Record) (w : σ) (message : GoString) (h : b.render d rec = .ok message) :
    publishedPayloads (b.Log level d rec w).trace = [message] := by
  have hL := log_of_render_ok b level d rec w message h
  simp only at hL
  by_cases h3 : (b.broker.Error (b.broker.Publish b.topic 0 false message w).1
      (b.broker.Wait (b.broker.Publish b.topic 0 false message w).1
        (b.broker.WaitTimeout (b.broker.Publish b.topic 0 false message w).1 (Second * 5)
          (b.broker.Publish b.topic 0 false message w).2).2).2).1 = none
  · rw [hL.1 h3]; rfl
  · rw [hL.2 h3]; rfl

/-! ## Rendering by style -/

/-- C1: when the backend's style is exactly `MINIMAL`, then for every record, call depth,
level and client the payloads passed to `Publish` by `Log` are the single payload
`rec.Message()`, byte for byte, with nothing added. -/
theorem minimal_payload_is_message {σ τ ε : Type} (b : MQTTBackend σ τ ε) (level : Level)
    (calldepth : Int) (rec : Record) (w : σ) (h : b.style = StyleMinimal) :
    publishedPayloads (b.Log level calldepth rec w).trace = [rec.Message] :=
  publishedPayloads_of_render b level calldepth rec w rec.Message
    (render_minimal b calldepth rec h)

theorem minimal_payload_is_message_witness :
    (NewBackend (constClient false) (ascii "logs") StyleMinimal).style = StyleMinimal
      ∧ publishedPayloads ((NewBackend (constClient false) (ascii "logs") StyleMinimal).Log
          .INFO 0 (sampleRecord (ascii "ping") sampleTime) none).trace = [ascii "ping"] :=
  ⟨rfl, minimal_payload_is_message _ _ _ _ _ rfl⟩

/-- C2: for every style string other than exactly `MINIMAL` and `JSON`, every record and
every call depth `d`, the payloads passed to `Publish` by `Log` are the single payload
`rec.Formatted(d + 1)`, the sum being Go's addition on `int`. -/
theorem default_payload_is_formatted {σ τ ε : Type} (b : MQTTBackend σ τ ε) (level : Level)
    (calldepth : Int) (rec : Record) (w : σ) (hm : b.style ≠ StyleMinimal)
    (hj : b.style ≠ StyleJSON) :
    publishedPayloads (b.Log level calldepth rec w).trace
      = [rec.Formatted (intAdd calldepth 1)] :=
  publishedPayloads_of_render b level calldepth rec w _ (render_default b calldepth rec hm hj)

theorem default_payload_is_formatted_witness :
    (NewBackend (constClient false) (ascii "logs") (ascii "json")).style ≠ StyleMinimal
      ∧ (NewBackend (constClient false) (ascii "logs") (ascii "json")).style ≠ StyleJSON
      ∧ publishedPayloads ((NewBackend (constClient false) (ascii "logs") (ascii "json")).Log
          .INFO 2 (sampleRecord (ascii "ping") sampleTime) none).trace
        = [(sampleRecord (ascii "ping") sampleTime).Formatted 3] :=
  ⟨by decide, by decide,
    default_payload_is_formatted (NewBackend (constClient false) (ascii "logs") (ascii "json"))
      .INFO 2 (sampleRecord (ascii "ping") sampleTime) none (by decide) (by decide)⟩

/-- Go's `calldepth + 1` is the mathematical sum whenever that sum is an `int`. -/
theorem intAdd_one (d : Int) (hlo : -(2 ^ 63) ≤ d + 1) (hhi : d + 1 < 2 ^ 63) :
    intAdd d 1 = d + 1 := by
  unfold intAdd
  omega

theorem default_styles_examples :
    StyleFormatted ≠ StyleMinimal ∧ StyleFormatted ≠ StyleJSON
      ∧ ([] : GoString) ≠ StyleMinimal ∧ ([] : GoString) ≠ StyleJSON
      ∧ ascii "json" ≠ StyleMinimal ∧ ascii "json" ≠ StyleJSON := by decide

/-! ## Publishing and the returned error -/

/-- C9: every `Publish` call that `Log` issues carries the topic given to `NewBackend`,
quality of service 0, the retained flag false, and as payload the message rendered for
the record, for every style, level, call depth, record and client. -/
theorem publish_arguments {σ τ ε : Type} (client : Client σ τ ε) (topic style : GoString)
    (level : Level) (calldepth : Int) (rec : Record) (w : σ)
    (t : GoString) (q : Nat) (r : Bool) (payload : GoString)
    (h : Event.publish t q r payload
      ∈ ((NewBackend client topic style).Log level calldepth rec w).trace) :
    t = topic ∧ q = 0 ∧ r = false
      ∧ (NewBackend client topic style).render calldepth rec = .ok payload := by
  cases hr : (NewBackend client topic style).render calldepth rec with
  | error err =>
    rw [log_of_render_error _ level calldepth rec w err hr] at h
    simp at h
  | ok message =>
    have hL := log_of_render_ok (NewBackend client topic style) level calldepth rec w message hr
    simp only at hL
    by_cases h3 : ((NewBackend client topic style).broker.Error
        ((NewBackend client topic style).broker.Publish
          (NewBackend client topic style).topic 0 false message w).1
        ((NewBackend client topic style).broker.Wait
          ((NewBackend client topic style).broker.Publish
            (NewBackend client topic style).topic 0 false message w).1
          ((NewBackend client topic style).broker.WaitTimeout
            ((NewBackend client topic style).broker.Publish
              (NewBackend client topic style).topic 0 false message w).1 (Second * 5)
            ((NewBackend client topic style).broker.Publish
              (NewBackend client topic style).topic 0 false message w).2).2).2).1 = none
    · rw [hL.1 h3] at h
      simp at h
      obtain ⟨h1, h2, h3, h4⟩ := h
      exact ⟨h1, h2, h3, by rw [h4]⟩
    · rw [hL.2 h3] at h
      simp at h
      obtain ⟨h1, h2, h3, h4⟩ := h
      exact ⟨h1, h2, h3, by rw [h4]⟩

theorem publish_arguments_witness :
    Event.publish (ascii "logs") 0 false (ascii "ping")
        ∈ ((NewBackend (constClient false) (ascii "logs") StyleMinimal).Log .INFO 0
            (sampleRecord (ascii "ping") sampleTime) (some 7)).trace
      ∧ (ascii "logs" = ascii "logs" ∧ 0 = 0 ∧ false = false
        ∧ (NewBackend (constClient false) (ascii "logs") StyleMinimal).render 0
            (sampleRecord (ascii "ping") sampleTime) = .ok (ascii "ping")) :=
  ⟨by decide, publish_arguments _ _ _ .INFO 0 _ (some 7) _ _ _ _ (by decide)⟩

/-- C6: whenever rendering succeeds, whatever the style and the record, the value `Log`
returns is the error the publish token reports after the waits: the last value that
`token.Error()` reported, unchanged; in particular `nil` when it reported `nil`. -/
theorem returns_token_error {σ τ ε : Type} (b : MQTTBackend σ τ ε) (level : Level)
    (calldepth : Int) (rec : Record) (w : σ) (message : GoString)
    (h : b.render calldepth rec = .ok message) :
    ∃ e, (reportedErrors (b.Log level calldepth rec w).trace).getLast? = some e
      ∧ (b.Log level calldepth rec w).ret = e.map LogError.token
      ∧ (e = none → (b.Log level calldepth rec w).ret = none) := by
  have hL := log_of_render_ok b level calldepth rec w message h
  simp only at hL
  by_cases h3 : (b.broker.Error (b.broker.Publish b.topic 0 false message w).1
      (b.broker.Wait (b.broker.Publish b.topic 0 false message w).1
        (b.broker.WaitTimeout (b.broker.Publish b.topic 0 false message w).1 (Second * 5)
          (b.broker.Publish b.topic 0 false message w).2).2).2).1 = none
  · rw [hL.1 h3]
    exact ⟨none, by rw [h3]; rfl, rfl, fun _ => rfl⟩
  · rw [hL.2 h3]
    exact ⟨(b.broker.Error (b.broker.Publish b.topic 0 false message w).1
      (b.broker.Error (b.broker.Publish b.topic 0 false message w).1
        (b.broker.Wait (b.broker.Publish b.topic 0 false message w).1
          (b.broker.WaitTimeout (b.broker.Publish b.topic 0 false message w).1 (Second * 5)
            (b.broker.Publish b.topic 0 false message w).2).2).2).2).1,
      rfl, rfl, fun he => by rw [he]; rfl⟩

theorem returns_token_error_witness :
    (NewBackend (constClient false) (ascii "logs") StyleJSON).render 0
        (sampleRecord (ascii "ping") sampleTime)
        = .ok ([0x7B] ++ ascii ("\"id\":42,\"time\":\"2017-03-04T05:06:07.5+01:00\","
            ++ "\"level\":\"INFO\",\"module\":\"core\",\"message\":\"ping\"") ++ [0x7D])
      ∧ ∃ e, (reportedErrors ((NewBackend (constClient false) (ascii "logs") StyleJSON).Log
            .INFO 0 (sampleRecord (ascii "ping") sampleTime) (some 7)).trace).getLast? = some e
        ∧ ((NewBackend (constClient false) (ascii "logs") StyleJSON).Log
            .INFO 0 (sampleRecord (ascii "ping") sampleTime) (some 7)).ret
            = e.map LogError.token
        ∧ (e = none → ((NewBackend (constClient false) (ascii "logs") StyleJSON).Log
            .INFO 0 (sampleRecord (ascii "ping") sampleTime) (some 7)).ret = none) :=
  ⟨rfl, returns_token_error _ .INFO 0 _ (some 7) _ rfl⟩

/-- Two runs with a token whose error never changes: it reports error 7 and `Log` returns
it; it reports `nil` and `Log` returns `nil`. -/
theorem stable_token_examples :
    ((NewBackend (constClient false) (ascii "logs") StyleMinimal).Log .INFO 0
        (sampleRecord (ascii "ping") sampleTime) (some 7)).ret = some (.token 7)
      ∧ ((NewBackend (constClient false) (ascii "logs") StyleMinimal).Log .INFO 0
        (sampleRecord (ascii "ping") sampleTime) none).ret = none := by decide

/-- The source calls `token.Error()` a second time to build the return value: with a token
that reports error 1 and then `nil`, both calls are made and `Log` returns `nil`. -/
theorem second_report_is_returned :
    reportedErrors ((NewBackend (flakyClient (some 1) none) (ascii "logs") StyleMinimal).Log
        .INFO 0 (sampleRecord (ascii "ping") sampleTime) 0).trace = [some 1, none]
      ∧ ((NewBackend (flakyClient (some 1) none) (ascii "logs") StyleMinimal).Log
        .INFO 0 (sampleRecord (ascii "ping") sampleTime) 0).ret = none := by decide

/-- C7: when the style is `JSON` and serializing the entry fails, `Log` returns that
serialization error and has made no call on the client: no `Publish`, no wait on a token,
and the client's state is untouched. -/
theorem serialization_error_returned {σ τ ε : Type} (b : MQTTBackend σ τ ε) (level : Level)
    (calldepth : Int) (rec : Record) (w : σ) (err : MarshalError) (hs : b.style = StyleJSON)
    (he : Marshal (entryOf rec) = .error err) :
    b.Log level calldepth rec w = { ret := some (.marshal err), trace := [], world := w } :=
  log_of_render_error b level calldepth rec w err (by rw [render_json b calldepth rec hs, he])

theorem serialization_error_returned_witness :
    (NewBackend (constClient false) (ascii "logs") StyleJSON).style = StyleJSON
      ∧ Marshal (entryOf (sampleRecord (ascii "ping") farTime)) = .error .yearOutsideOfRange
      ∧ (NewBackend (constClient false) (ascii "logs") StyleJSON).Log .INFO 0
          (sampleRecord (ascii "ping") farTime) (some 7)
        = { ret := some (.marshal .yearOutsideOfRange), trace := [], world := some 7 } :=
  ⟨rfl, rfl, serialization_error_returned _ .INFO 0 _ (some 7) _ rfl rfl⟩

/-- C8 as stated fails: under style `JSON`, for a record whose time stamp lies in year
10000, `Log` makes no `Publish` call at all. -/
theorem no_publish_when_serialization_fails :
    publishCount ((NewBackend (constClient false) (ascii "logs") StyleJSON).Log .INFO 0
      (sampleRecord (ascii "ping") farTime) none).trace = 0 := by decide

/-- C8, amended: every call of `Log` makes exactly one `Publish` call, except that it makes
none when the style is `JSON` and serializing the entry fails. -/
theorem publish_count {σ τ ε : Type} (b : MQTTBackend σ τ ε) (level : Level)
    (calldepth : Int) (rec : Record) (w : σ) :
    publishCount (b.Log level calldepth rec w).trace
      = if b.style = StyleJSON ∧ serializationFails rec = true then 0 else 1 := by
  cases hr : b.render calldepth rec with
  | error err =>
    rw [log_of_render_error b level calldepth rec w err hr]
    by_cases hs : b.style = StyleJSON
    · rw [render_json b calldepth rec hs] at hr
      have : serializationFails rec = true := by unfold serializationFails; rw [hr]
      rw [if_pos ⟨hs, this⟩]; rfl
    · by_cases hm : b.style = StyleMinimal
      · rw [render_minimal b calldepth rec hm] at hr; cases hr
      · rw [render_default b calldepth rec hm hs] at hr; cases hr
  | ok message =>
    unfold publishCount
    rw [publishedPayloads_of_render b level calldepth rec w message hr]
    by_cases hs : b.style = StyleJSON
    · rw [render_json b calldepth rec hs] at hr
      have : ¬ (serializationFails rec = true) := by unfold serializationFails; rw [hr]; simp
      rw [if_neg (fun h => this h.2)]; rfl
    · rw [if_neg (fun h => hs h.1)]; rfl

/-- C10: in every call of `Log` that reaches `Publish`, the token operations follow in the
order `WaitTimeout(5 s)`, `Wait()`, `Error()`; `Wait()` is called whatever `WaitTimeout`
returned; nothing but a further `Error()` call follows; and when the token's error is
`nil` after the waits `Log` returns `nil`, whatever the two waits returned. -/
theorem wait_order {σ τ ε : Type} (b : MQTTBackend σ τ ε) (level : Level)
    (calldepth : Int) (rec : Record) (w : σ) (message : GoString)
    (h : b.render calldepth rec = .ok message) :
    let p := b.broker.Publish b.topic 0 false message w
    let r1 := b.broker.WaitTimeout p.1 5000000000 p.2
    let r2 := b.broker.Wait p.1 r1.2
    let r3 := b.broker.Error p.1 r2.2
    ∃ tail, (b.Log level calldepth rec w).trace
        = .publish b.topic 0 false message :: .waitTimeout 5000000000 r1.1 :: .wait r2.1
            :: .error r3.1 :: tail
      ∧ (∀ ev ∈ tail, ∃ e, ev = .error e)
      ∧ (r3.1 = none → tail = [] ∧ (b.Log level calldepth rec w).ret = none) := by
  intro p r1 r2 r3
  have hL := log_of_render_ok b level calldepth rec w message h
  simp only at hL
  have hS : Second * 5 = 5000000000 := by decide
  rw [hS] at hL
  by_cases h3 : r3.1 = none
  · refine ⟨[], ?_, by simp, fun _ => ⟨rfl, ?_⟩⟩ <;> rw [hL.1 h3]
  · refine ⟨[.error (b.broker.Error p.1 r3.2).1], ?_, by simp, fun h => absurd h h3⟩
    rw [hL.2 h3]

theorem wait_order_witness :
    (NewBackend (constClient true) (ascii "logs") StyleMinimal).render 0
        (sampleRecord (ascii "ping") sampleTime) = .ok (ascii "ping")
      ∧ ∃ tail, ((NewBackend (constClient true) (ascii "logs") StyleMinimal).Log .INFO 0
            (sampleRecord (ascii "ping") sampleTime) none).trace
          = .publish (ascii "logs") 0 false (ascii "ping") :: .waitTimeout 5000000000 false
              :: .wait true :: .error none :: tail
        ∧ (∀ ev ∈ tail, ∃ e, ev = Event.error e)
        ∧ ((none : Option Nat) = none → tail = []
          ∧ ((NewBackend (constClient true) (ascii "logs") StyleMinimal).Log .INFO 0
            (sampleRecord (ascii "ping") sampleTime) none).ret = none) :=
  ⟨rfl, wait_order (NewBackend (constClient true) (ascii "logs") StyleMinimal) .INFO 0
    (sampleRecord (ascii "ping") sampleTime) none (ascii "ping") rfl⟩

/-! ## UTF-8 decoding and encoding -/

theorem decodeRune_ascii (b : Nat) (rest : GoString) (hb : b < 0x80) :
    DecodeRune (b :: rest) = (b, 1) := by
  simp [DecodeRune, hb]

/-- A multi-byte decoding: the rune's bytes, re-encoded, are the bytes read. -/
theorem decodeRune_multi (b : Nat) (rest : GoString) (hb : 0x80 ≤ b)
    (hne : ¬ ((DecodeRune (b :: rest)).1 = RuneError ∧ (DecodeRune (b :: rest)).2 = 1)) :
    ∃ body tail, rest = body ++ tail ∧ body.length + 1 = (DecodeRune (b :: rest)).2
      ∧ EncodeRune (DecodeRune (b :: rest)).1 = b :: body
      ∧ 0x80 ≤ (DecodeRune (b :: rest)).1
      ∧ ∀ tail2, DecodeRune (b :: (body ++ tail2)) = DecodeRune (b :: rest) := by
  unfold DecodeRune at hne ⊢
  have h0 : ¬ b < 0x80 := by omega
  simp only [h0, if_false] at hne ⊢
  by_cases h1 : b < 0xC2 ∨ 0xF4 < b
  · simp [h1] at hne
  · simp only [h1, if_false] at hne ⊢
    by_cases h2 : b < 0xE0
    · simp only [h2, if_true] at hne ⊢
      rcases rest with _ | ⟨s1, r1⟩
      · simp at hne
      · simp only at hne ⊢
        by_cases h3 : s1 < 0x80 ∨ 0xBF < s1
        · simp [h3] at hne
        · simp only [h3, if_false] at hne ⊢
          refine ⟨[s1], r1, rfl, rfl, ?_, by omega, fun _ => by simp [h3]⟩
          unfold EncodeRune
          have e1 : ¬ (b % 32 * 64 + s1 % 64 < 0x80) := by omega
          have e2 : b % 32 * 64 + s1 % 64 < 0x800 := by omega
          simp only [e1, e2, if_false, if_true]
          congr 1
          · omega
          · congr 1; omega
    · simp only [h2, if_false] at hne ⊢
      by_cases h4 : b < 0xF0
      · simp only [h4, if_true] at hne ⊢
        rcases rest with _ | ⟨s1, _ | ⟨s2, r2⟩⟩
        · simp at hne
        · simp at hne
        · simp only at hne ⊢
          by_cases h3 : s1 < (if b = 0xE0 then 0xA0 else 0x80) ∨ (if b = 0xED then 0x9F else 0xBF) < s1
          · simp [h3] at hne
          · simp only [h3, if_false] at hne ⊢
            by_cases h5 : s2 < 0x80 ∨ 0xBF < s2
            · simp [h5] at hne
            · simp only [h5, if_false] at hne ⊢
              have hs1 : 0x80 ≤ s1 ∧ s1 ≤ 0xBF ∧ (b = 0xE0 → 0xA0 ≤ s1) ∧ (b = 0xED → s1 ≤ 0x9F) := by
                split_ifs at h3 <;> omega
              refine ⟨[s1, s2], r2, rfl, rfl, ?_, by omega, fun _ => by simp [h3, h5]⟩
              unfold EncodeRune
              have e1 : ¬ (b % 16 * 4096 + s1 % 64 * 64 + s2 % 64 < 0x80) := by omega
              have e2 : ¬ (b % 16 * 4096 + s1 % 64 * 64 + s2 % 64 < 0x800) := by omega
              have e3 : ¬ ((0xD800 ≤ b % 16 * 4096 + s1 % 64 * 64 + s2 % 64
                  ∧ b % 16 * 4096 + s1 % 64 * 64 + s2 % 64 ≤ 0xDFFF)
                  ∨ 0x10FFFF < b % 16 * 4096 + s1 % 64 * 64 + s2 % 64) := by omega
              have e4 : b % 16 * 4096 + s1 % 64 * 64 + s2 % 64 < 0x10000 := by omega
              simp only [e1, e2, e3, e4, if_false, if_true]
              congr 1
              · omega
              · congr 1
                · omega
                · congr 1; omega
      · simp only [h4, if_false] at hne ⊢
        rcases rest with _ | ⟨s1, _ | ⟨s2, _ | ⟨s3, r3⟩⟩⟩
        · simp at hne
        · simp at hne
        · simp at hne
        · simp only at hne ⊢
          by_cases h3 : s1 < (if b = 0xF0 then 0x90 else 0x80) ∨ (if b = 0xF4 then 0x8F else 0xBF) < s1
          · simp [h3] at hne
          · simp only [h3, if_false] at hne ⊢
            by_cases h5 : s2 < 0x80 ∨ 0xBF < s2
            · simp [h5] at hne
            · simp only [h5, if_false] at hne ⊢
              by_cases h6 : s3 < 0x80 ∨ 0xBF < s3
              · simp [h6] at hne
              · simp only [h6, if_false] at hne ⊢
                have hs1 : 0x80 ≤ s1 ∧ s1 ≤ 0xBF ∧ (b = 0xF0 → 0x90 ≤ s1) ∧ (b = 0xF4 → s1 ≤ 0x8F) := by
                  split_ifs at h3 <;> omega
                refine ⟨[s1, s2, s3], r3, rfl, rfl, ?_, by omega, fun _ => by simp [h3, h5, h6]⟩
                unfold EncodeRune
                have e1 : ¬ (b % 8 * 262144 + s1 % 64 * 4096 + s2 % 64 * 64 + s3 % 64 < 0x80) := by omega
                have e2 : ¬ (b % 8 * 262144 + s1 % 64 * 4096 + s2 % 64 * 64 + s3 % 64 < 0x800) := by omega
                have e3 : ¬ ((0xD800 ≤ b % 8 * 262144 + s1 % 64 * 4096 + s2 % 64 * 64 + s3 % 64
                    ∧ b % 8 * 262144 + s1 % 64 * 4096 + s2 % 64 * 64 + s3 % 64 ≤ 0xDFFF)
                    ∨ 0x10FFFF < b % 8 * 262144 + s1 % 64 * 4096 + s2 % 64 * 64 + s3 % 64) := by omega
                have e4 : ¬ (b % 8 * 262144 + s1 % 64 * 4096 + s2 % 64 * 64 + s3 % 64 < 0x10000) := by omega
                simp only [e1, e2, e3, e4, if_false]
                congr 1
                · omega
                · congr 1
                  · omega
                  · congr 1
                    · omega
                    · congr 1; omega

/-! ## Reading a string literal back -/

theorem hexVal_hexDigit : ∀ n, n < 16 → hexVal (hexDigit n) = some n := by decide

theorem unquote_quote (f : Nat) (rest : GoString) :
    unquoteLoop (f + 1) (0x22 :: rest) = some ([], rest) := by
  simp [unquoteLoop]

theorem unquote_plain_byte (f c : Nat) (rest : GoString) (h1 : c ≠ 0x22) (h2 : c ≠ 0x5C)
    (h3 : 0x20 ≤ c) (h4 : c < 0x80) :
    unquoteLoop (f + 1) (c :: rest) = (unquoteLoop f rest).map (fun r => (c :: r.1, r.2)) := by
  have h5 : ¬ c < 0x20 := by omega
  simp [unquoteLoop, h1, h2, h5, h4]

theorem unquote_multi (f c : Nat) (rest : GoString) (h : 0x80 ≤ c) :
    unquoteLoop (f + 1) (c :: rest)
      = (unquoteLoop f (rest.drop ((DecodeRune (c :: rest)).2 - 1))).map
          (fun r => (EncodeRune (DecodeRune (c :: rest)).1 ++ r.1, r.2)) := by
  have h1 : c ≠ 0x22 := by omega
  have h2 : c ≠ 0x5C := by omega
  have h3 : ¬ c < 0x20 := by omega
  have h4 : ¬ c < 0x80 := by omega
  simp [unquoteLoop, h1, h2, h3, h4]

theorem unquote_u (f a b c d rr : Nat) (rest : GoString)
    (hg : getu4 (0x5C :: 0x75 :: a :: b :: c :: d :: rest) = some rr)
    (hs : ¬ (0xD800 ≤ rr ∧ rr ≤ 0xDFFF)) :
    unquoteLoop (f + 1) (0x5C :: 0x75 :: a :: b :: c :: d :: rest)
      = (unquoteLoop f rest).map (fun r => (EncodeRune rr ++ r.1, r.2)) := by
  rw [unquoteLoop]
  simp only [hg]
  simp [hs]

theorem unquote_escapeByte (f b : Nat) (rest : GoString) (hb : b < 0x80)
    (hs : htmlSafe b = false) :
    unquoteLoop (f + 1) (escapeByte b ++ rest)
      = (unquoteLoop f rest).map (fun r => (b :: r.1, r.2)) := by
  have hcases : b < 0x20 ∨ b = 0x22 ∨ b = 0x26 ∨ b = 0x3C ∨ b = 0x3E ∨ b = 0x5C := by
    simp [htmlSafe] at hs
    omega
  by_cases e1 : b = 0x5C ∨ b = 0x22
  · rcases e1 with rfl | rfl <;> simp [escapeByte, unquoteLoop]
  by_cases e2 : b = 0x08
  · subst e2; simp [escapeByte, unquoteLoop]
  by_cases e3 : b = 0x0C
  · subst e3; simp [escapeByte, unquoteLoop]
  by_cases e4 : b = 0x0A
  · subst e4; simp [escapeByte, unquoteLoop]
  by_cases e5 : b = 0x0D
  · subst e5; simp [escapeByte, unquoteLoop]
  by_cases e6 : b = 0x09
  · subst e6; simp [escapeByte, unquoteLoop]
  have he : escapeByte b = [0x5C, 0x75, 0x30, 0x30, hexDigit (b / 16), hexDigit (b % 16)] := by
    simp [escapeByte, e1, e2, e3, e4, e5, e6]
  rw [he]
  have hg : getu4 (0x5C :: 0x75 :: 0x30 :: 0x30 :: hexDigit (b / 16) :: hexDigit (b % 16) :: rest)
      = some b := by
    have h1 := hexVal_hexDigit (b / 16) (by omega)
    have h2 := hexVal_hexDigit (b % 16) (by omega)
    have h0 : hexVal 0x30 = some 0 := by decide
    simp only [getu4, h0, h1, h2]
    congr 1
    omega
  have := unquote_u f 0x30 0x30 (hexDigit (b / 16)) (hexDigit (b % 16)) b rest hg (by omega)
  simp only [List.cons_append, List.nil_append]
  rw [this]
  have : EncodeRune b = [b] := by simp [EncodeRune, hb]
  simp [this]

theorem toValidLoop_ascii (n b : Nat) (t : GoString) (hb : b < 0x80) :
    toValidLoop (n + 1) (b :: t) = b :: toValidLoop n t := by
  have hd := decodeRune_ascii b t hb
  have : b ≠ RuneError := by unfold RuneError; omega
  simp [toValidLoop, hd, this]

theorem unquote_appendString (n : Nat) : ∀ (s rest : GoString) (fuel : Nat), s.length ≤ n →
    (appendStringLoop n s).length < fuel →
    unquoteLoop fuel (appendStringLoop n s ++ 0x22 :: rest) = some (toValidLoop n s, rest) := by
  induction n with
  | zero =>
    intro s rest fuel _ hf
    obtain ⟨f, rfl⟩ : ∃ f, fuel = f + 1 := ⟨fuel - 1, by omega⟩
    simp [appendStringLoop, toValidLoop, unquote_quote]
  | succ n ih =>
    intro s rest fuel hs hf
    obtain ⟨f, rfl⟩ : ∃ f, fuel = f + 1 := ⟨fuel - 1, by omega⟩
    cases s with
    | nil => simp [appendStringLoop, toValidLoop, unquote_quote]
    | cons b t =>
      simp only [List.length_cons] at hs
      have ht : t.length ≤ n := by omega
      by_cases hb : b < 0x80
      · by_cases hsafe : htmlSafe b = true
        · have hA : appendStringLoop (n + 1) (b :: t) = b :: appendStringLoop n t := by
            simp [appendStringLoop, hb, hsafe]
          rw [hA] at hf ⊢
          simp only [List.length_cons] at hf
          have hp : b ≠ 0x22 ∧ b ≠ 0x5C ∧ 0x20 ≤ b := by
            simp [htmlSafe] at hsafe; omega
          rw [List.cons_append, unquote_plain_byte f b _ hp.1 hp.2.1 hp.2.2 hb,
            ih t rest f ht (by omega), toValidLoop_ascii n b t hb]
          rfl
        · have hsafe2 : htmlSafe b = false := by simpa using hsafe
          have hA : appendStringLoop (n + 1) (b :: t) = escapeByte b ++ appendStringLoop n t := by
            simp [appendStringLoop, hb, hsafe2]
          rw [hA] at hf ⊢
          have hl : 1 ≤ (escapeByte b).length := by
            unfold escapeByte; split_ifs <;> simp
          simp only [List.length_append] at hf
          rw [List.append_assoc, unquote_escapeByte f b _ hb hsafe2,
            ih t rest f ht (by omega), toValidLoop_ascii n b t hb]
          rfl
      · have hb2 : 0x80 ≤ b := by omega
        by_cases herr : (DecodeRune (b :: t)).1 = RuneError ∧ (DecodeRune (b :: t)).2 = 1
        · have hA : appendStringLoop (n + 1) (b :: t)
              = [0x5C, 0x75, 0x66, 0x66, 0x66, 0x64] ++ appendStringLoop n t := by
            simp only [appendStringLoop, if_neg hb, if_pos herr]
          have hV : toValidLoop (n + 1) (b :: t) = [0xEF, 0xBF, 0xBD] ++ toValidLoop n t := by
            simp only [toValidLoop, if_pos herr]
          rw [hA] at hf ⊢
          simp only [List.length_append, List.length_cons, List.length_nil] at hf
          have hg : getu4 (0x5C :: 0x75 :: 0x66 :: 0x66 :: 0x66 :: 0x64
              :: (appendStringLoop n t ++ 0x22 :: rest)) = some 0xFFFD := by
            simp [getu4, hexVal]
          have hu := unquote_u f 0x66 0x66 0x66 0x64 0xFFFD
            (appendStringLoop n t ++ 0x22 :: rest) hg (by omega)
          simp only [List.cons_append, List.nil_append] at hu ⊢
          rw [hu, ih t rest f ht (by omega), hV]
          simp [EncodeRune]
        · obtain ⟨body, tail, htl, hlen, henc, hge, hdec⟩ := decodeRune_multi b t hb2 herr
          have htake : (b :: t).take (DecodeRune (b :: t)).2 = b :: body := by
            rw [← hlen, htl]; simp
          have hdrop : t.drop ((DecodeRune (b :: t)).2 - 1) = tail := by
            rw [← hlen, htl]; simp
          have htail : tail.length ≤ n := by
            have : t.length = body.length + tail.length := by rw [htl]; simp
            omega
          have hV : toValidLoop (n + 1) (b :: t) = (b :: body) ++ toValidLoop n tail := by
            simp only [toValidLoop, if_neg herr, htake, hdrop]
          by_cases hsep : (DecodeRune (b :: t)).1 = 0x2028 ∨ (DecodeRune (b :: t)).1 = 0x2029
          · have hA : appendStringLoop (n + 1) (b :: t)
                = [0x5C, 0x75, 0x32, 0x30, 0x32, hexDigit ((DecodeRune (b :: t)).1 % 16)]
                  ++ appendStringLoop n tail := by
              simp only [appendStringLoop, if_neg hb, if_neg herr, if_pos hsep, hdrop]
            rw [hA] at hf ⊢
            simp only [List.length_append, List.length_cons, List.length_nil] at hf
            have hg : getu4 (0x5C :: 0x75 :: 0x32 :: 0x30 :: 0x32
                :: hexDigit ((DecodeRune (b :: t)).1 % 16)
                :: (appendStringLoop n tail ++ 0x22 :: rest)) = some (DecodeRune (b :: t)).1 := by
              rcases hsep with h | h <;> rw [h] <;> simp [getu4, hexVal, hexDigit]
            have hu := unquote_u f 0x32 0x30 0x32 (hexDigit ((DecodeRune (b :: t)).1 % 16))
              (DecodeRune (b :: t)).1 (appendStringLoop n tail ++ 0x22 :: rest) hg
              (by rcases hsep with h | h <;> rw [h] <;> omega)
            simp only [List.cons_append, List.nil_append] at hu ⊢
            rw [hu, ih tail rest f htail (by omega), hV, henc]
            rfl
          · have hA : appendStringLoop (n + 1) (b :: t)
                = (b :: body) ++ appendStringLoop n tail := by
              simp only [appendStringLoop, if_neg hb, if_neg herr, if_neg hsep, htake, hdrop]
            rw [hA] at hf ⊢
            simp only [List.length_append, List.length_cons] at hf
            have hd2 := hdec (appendStringLoop n tail ++ 0x22 :: rest)
            rw [List.cons_append, List.cons_append, List.append_assoc,
              unquote_multi f b _ hb2, hd2, henc]
            have hdrop2 : (body ++ (appendStringLoop n tail ++ 0x22 :: rest)).drop
                ((DecodeRune (b :: t)).2 - 1) = appendStringLoop n tail ++ 0x22 :: rest := by
              rw [← hlen]; simp
            rw [hdrop2, ih tail rest f htail (by omega), hV]
            rfl

theorem toValidLoop_of_valid (n : Nat) : ∀ s : GoString, s.length ≤ n →
    validLoop n s = true → toValidLoop n s = s := by
  induction n with
  | zero => intro s hs _; cases s with
    | nil => rfl
    | cons b t => simp at hs
  | succ n ih =>
    intro s hs hv
    cases s with
    | nil => rfl
    | cons b t =>
      simp only [List.length_cons] at hs
      by_cases herr : (DecodeRune (b :: t)).1 = RuneError ∧ (DecodeRune (b :: t)).2 = 1
      · simp [validLoop, herr] at hv
      · simp only [validLoop, if_neg herr] at hv
        simp only [toValidLoop, if_neg herr]
        by_cases hb : b < 0x80
        · have hd := decodeRune_ascii b t hb
          rw [hd] at hv ⊢
          simp only [Nat.sub_self, List.drop_zero] at hv ⊢
          rw [ih t (by omega) hv]
          simp
        · obtain ⟨body, tail, htl, hlen, _, _, _⟩ := decodeRune_multi b t (by omega) herr
          rw [← hlen] at hv ⊢
          have hdrop : t.drop (body.length + 1 - 1) = tail := by rw [htl]; simp
          rw [hdrop] at hv ⊢
          have : tail.length ≤ n := by
            have : t.length = body.length + tail.length := by rw [htl]; simp
            omega
          rw [ih tail this hv, htl]
          simp

theorem toValidUTF8_of_valid (s : GoString) (h : ValidString s = true) : toValidUTF8 s = s :=
  toValidLoop_of_valid s.length s (le_refl _) h

/-! ## Decimal integers -/

theorem formatDigits_acc (fuel : Nat) : ∀ (u : Nat) (acc : GoString), u < fuel →
    formatDigits fuel u acc = formatDigits (u + 1) u [] ++ acc := by
  induction fuel using Nat.strong_induction_on with
  | _ fuel ih =>
    intro u acc hu
    obtain ⟨k, rfl⟩ : ∃ k, fuel = k + 1 := ⟨fuel - 1, by omega⟩
    by_cases h10 : u < 10
    · simp [formatDigits, h10]
    · have hdiv : u / 10 < u := by omega
      have e1 : formatDigits (k + 1) u acc = formatDigits k (u / 10) ((48 + u % 10) :: acc) := by
        simp [formatDigits, h10]
      have e2 : formatDigits (u + 1) u [] = formatDigits u (u / 10) [48 + u % 10] := by
        simp [formatDigits, h10]
      rw [e1, e2, ih k (by omega) (u / 10) _ (by omega), ih u (by omega) (u / 10) _ hdiv]
      simp

theorem formatUint_rec (u : Nat) :
    FormatUint u = if u < 10 then [48 + u] else FormatUint (u / 10) ++ [48 + u % 10] := by
  unfold FormatUint
  by_cases h10 : u < 10
  · simp [formatDigits, h10]
  · rw [if_neg h10]
    have e2 : formatDigits (u + 1) u [] = formatDigits u (u / 10) [48 + u % 10] := by
      simp [formatDigits, h10]
    rw [e2, formatDigits_acc u (u / 10) _ (by omega)]

theorem digitsVal_append (a b : GoString) :
    digitsVal (a ++ b) = digitsVal a * 10 ^ b.length + digitsVal b := by
  induction b using List.reverseRecOn with
  | nil => simp [digitsVal]
  | append_singleton b c ih =>
    have e : ∀ l : GoString, digitsVal (l ++ [c]) = digitsVal l * 10 + (c - 48) := by
      intro l; simp [digitsVal, List.foldl_append]
    rw [← List.append_assoc, e, ih, e]
    simp [pow_succ]
    ring

/-- What `FormatUint` writes: digits only, at least one, none superfluous, reading `u`. -/
theorem formatUint_spec (u : Nat) :
    (∀ c ∈ FormatUint u, isDigit c = true) ∧ FormatUint u ≠ []
      ∧ digitsVal (FormatUint u) = u
      ∧ (1 < (FormatUint u).length → (FormatUint u).head? ≠ some 0x30)
      ∧ (∀ w, u < 10 ^ w → 0 < w → (FormatUint u).length ≤ w) := by
  induction u using Nat.strong_induction_on with
  | _ u ih =>
    rw [formatUint_rec]
    by_cases h10 : u < 10
    · simp only [if_pos h10]
      refine ⟨?_, by simp, ?_, by simp, ?_⟩
      · intro c hc
        simp at hc
        subst hc
        simp [isDigit]; omega
      · simp [digitsVal]
      · intro w _ hw; simp; omega
    · simp only [if_neg h10]
      obtain ⟨h1, h2, h3, h4, h5⟩ := ih (u / 10) (by omega)
      refine ⟨?_, by simp, ?_, ?_, ?_⟩
      · intro c hc
        rw [List.mem_append] at hc
        rcases hc with hc | hc
        · exact h1 c hc
        · simp at hc; subst hc; simp [isDigit]; omega
      · rw [digitsVal_append, h3]
        simp [digitsVal]; omega
      · intro _
        cases hF : FormatUint (u / 10) with
        | nil => exact absurd hF h2
        | cons a t =>
          simp only [List.cons_append, List.head?_cons]
          intro ha
          simp only [Option.some.injEq] at ha
          by_cases ht : t = []
          · subst ht
            rw [hF] at h3
            simp [digitsVal] at h3
            omega
          · have hlen : 1 < (FormatUint (u / 10)).length := by
              rw [hF]; cases t with
              | nil => exact absurd rfl ht
              | cons _ _ => simp
            have := h4 hlen
            rw [hF] at this
            simp at this
            exact this ha
      · intro w hw hw0
        obtain ⟨v, rfl⟩ : ∃ v, w = v + 1 := ⟨w - 1, by omega⟩
        have hv : 0 < v := by
          rcases Nat.eq_zero_or_pos v with h | h
          · subst h; simp at hw; omega
          · exact h
        have : u / 10 < 10 ^ v := by
          rw [pow_succ] at hw
          exact Nat.div_lt_of_lt_mul (by rw [Nat.mul_comm]; exact hw)
        have := h5 v this hv
        simp; omega

/-! ## Values and members -/

theorem unquote_plainText (s : GoString) : ∀ (rest : GoString) (fuel : Nat), PlainText s →
    s.length < fuel → unquoteLoop fuel (s ++ 0x22 :: rest) = some (s, rest) := by
  induction s with
  | nil =>
    intro rest fuel _ hf
    obtain ⟨f, rfl⟩ : ∃ f, fuel = f + 1 := ⟨fuel - 1, by omega⟩
    exact unquote_quote f rest
  | cons c t ih =>
    intro rest fuel hp hf
    obtain ⟨f, rfl⟩ : ∃ f, fuel = f + 1 := ⟨fuel - 1, by omega⟩
    simp only [List.length_cons] at hf
    have hc := hp c (by simp)
    have ht : PlainText t := fun x hx => hp x (by simp [hx])
    rw [List.cons_append, unquote_plain_byte f c _ hc.2.2.1 hc.2.2.2 hc.1 hc.2.1,
      ih rest f ht (by omega)]
    rfl

theorem skipSpace_cons (c : Nat) (s : GoString)
    (h : c ≠ 0x20 ∧ c ≠ 0x09 ∧ c ≠ 0x0D ∧ c ≠ 0x0A) : skipSpace (c :: s) = c :: s := by
  simp [skipSpace, List.dropWhile, h.1, h.2.1, h.2.2.1, h.2.2.2]

theorem takeWhile_digits (ds rest : GoString) (hd : ∀ c ∈ ds, isDigit c = true)
    (hr : ∀ c, rest.head? = some c → isDigit c = false) :
    (ds ++ rest).takeWhile isDigit = ds ∧ (ds ++ rest).dropWhile isDigit = rest := by
  induction ds with
  | nil =>
    cases rest with
    | nil => simp
    | cons c t => simp [List.takeWhile, List.dropWhile, hr c rfl]
  | cons d t ih =>
    have hd1 := hd d (by simp)
    have := ih (fun c hc => hd c (by simp [hc]))
    simp [List.takeWhile, List.dropWhile, hd1, this.1, this.2]

theorem parseDigits_formatUint (u : Nat) (rest : GoString)
    (hr : rest.head? = some 0x2C ∨ rest.head? = some 0x7D) :
    parseDigits (FormatUint u ++ rest) = some (FormatUint u, rest) := by
  obtain ⟨h1, h2, _, h4, _⟩ := formatUint_spec u
  have hnd : ∀ c, rest.head? = some c → isDigit c = false := by
    intro c hc
    rcases hr with h | h <;> rw [h] at hc <;> cases hc <;> decide
  obtain ⟨e1, e2⟩ := takeWhile_digits (FormatUint u) rest h1 hnd
  unfold parseDigits
  simp only [e1, e2]
  rw [if_neg h2, if_neg (fun h => h4 h.2 h.1)]
  rw [if_neg]
  rcases hr with h | h <;> rw [h] <;> simp

theorem encodes_formatUint (u : Nat) : Encodes (FormatUint u) (.num false (FormatUint u)) := by
  intro rest hr
  obtain ⟨h1, h2, _, _, _⟩ := formatUint_spec u
  cases hF : FormatUint u with
  | nil => exact absurd hF h2
  | cons d t =>
    have hd : isDigit d = true := h1 d (by rw [hF]; simp)
    have hd2 : 0x30 ≤ d ∧ d ≤ 0x39 := by simpa [isDigit] using hd
    have hp := parseDigits_formatUint u rest hr
    rw [hF] at hp
    constructor
    · rw [List.cons_append] at hp ⊢
      unfold parseValue
      split
      · rename_i heq; simp at heq; omega
      · rename_i heq; simp at heq; omega
      · rw [hp]; rfl
    · exact skipSpace_cons d _ (by omega)

theorem encodes_quoted (body decoded : GoString)
    (h : ∀ (rest : GoString) (fuel : Nat), body.length < fuel →
      unquoteLoop fuel (body ++ 0x22 :: rest) = some (decoded, rest)) :
    Encodes (0x22 :: (body ++ [0x22])) (.str body decoded) := by
  intro rest _
  constructor
  · have e : (0x22 :: (body ++ [0x22])) ++ rest = 0x22 :: (body ++ 0x22 :: rest) := by simp
    rw [e]
    show (unquoteLoop ((body ++ 0x22 :: rest).length + 1) (body ++ 0x22 :: rest)).map _ = _
    rw [h rest _ (by simp; omega)]
    have hl : (body ++ 0x22 :: rest).length - rest.length - 1 = body.length := by
      simp; omega
    simp only [Option.map_some', hl]
    rw [List.take_left]
  · exact skipSpace_cons _ _ (by decide)

theorem encodes_appendString (s : GoString) :
    Encodes (appendString s) (.str (appendStringLoop s.length s) (toValidUTF8 s)) :=
  encodes_quoted _ _ (fun rest fuel hf => unquote_appendString s.length s rest fuel (le_refl _) hf)

theorem encodes_plainText (text : GoString) (hp : PlainText text) :
    Encodes (0x22 :: (text ++ [0x22])) (.str text text) :=
  encodes_quoted _ _ (fun rest fuel hf => unquote_plainText text rest fuel hp hf)

theorem parseMembers_value (f : Nat) (key v rest : GoString) (jv : JValue)
    (hk : PlainText key) (hv : Encodes v jv)
    (hr : rest.head? = some 0x2C ∨ rest.head? = some 0x7D) :
    parseMembers (f + 1) (0x22 :: (key ++ [0x22, 0x3A] ++ v ++ rest))
      = match skipSpace rest with
        | 0x2C :: s5 => (parseMembers f (skipSpace s5)).map (fun r => ((key, jv) :: r.1, r.2))
        | 0x7D :: s5 => some ([(key, jv)], s5)
        | _ => none := by
  have e : key ++ [0x22, 0x3A] ++ v ++ rest = key ++ 0x22 :: (0x3A :: (v ++ rest)) := by simp
  rw [e, parseMembers]
  rw [unquote_plainText key _ _ hk (by simp; omega)]
  simp only
  rw [skipSpace_cons 0x3A _ (by decide)]
  simp only
  obtain ⟨hp, hs⟩ := hv rest hr
  rw [hs, hp]
  try rfl

theorem parseMembers_comma (f : Nat) (key v rest : GoString) (jv : JValue)
    (hk : PlainText key) (hv : Encodes v jv) :
    parseMembers (f + 1) (0x22 :: (key ++ [0x22, 0x3A] ++ v ++ 0x2C :: 0x22 :: rest))
      = (parseMembers f (0x22 :: rest)).map (fun r => ((key, jv) :: r.1, r.2)) := by
  rw [parseMembers_value f key v _ jv hk hv (by simp), skipSpace_cons _ _ (by decide)]
  simp only
  rw [skipSpace_cons _ _ (by decide)]

theorem parseMembers_close (f : Nat) (key v rest : GoString) (jv : JValue)
    (hk : PlainText key) (hv : Encodes v jv) :
    parseMembers (f + 1) (0x22 :: (key ++ [0x22, 0x3A] ++ v ++ 0x7D :: rest))
      = some ([(key, jv)], rest) := by
  rw [parseMembers_value f key v _ jv hk hv (by simp), skipSpace_cons _ _ (by decide)]

theorem structEncode_renders {fs : List (GoString × Option GoString)}
    {ms : List (GoString × JValue)} (h : Renders fs ms) :
    (∀ next, ms.length < (structEncode fs next).length)
      ∧ (ms = [] → ∀ next, structEncode fs next = if next = 0x7B then [0x7B, 0x7D] else [0x7D])
      ∧ (ms ≠ [] → ∃ T, (∀ next, structEncode fs next = next :: 0x22 :: T)
          ∧ ∀ fuel, ms.length ≤ fuel → parseMembers fuel (0x22 :: T) = some (ms, [])) := by
  induction h with
  | nil =>
    refine ⟨?_, fun _ next => rfl, fun h => absurd rfl h⟩
    intro next
    simp only [structEncode]
    split_ifs <;> simp
  | skip name _ ih => exact ih
  | @emit name v jv fs ms hn hv hr ih =>
    obtain ⟨ih1, ih2, ih3⟩ := ih
    refine ⟨?_, fun h => by simp at h, fun _ => ?_⟩
    · intro next
      have := ih1 0x2C
      simp only [structEncode, List.length_cons, List.length_append]
      omega
    · refine ⟨name ++ [0x22, 0x3A] ++ v ++ structEncode fs 0x2C, ?_, ?_⟩
      · intro next
        simp [structEncode]
      · intro fuel hf
        simp only [List.length_cons] at hf
        obtain ⟨f, rfl⟩ : ∃ f, fuel = f + 1 := ⟨fuel - 1, by omega⟩
        by_cases hms : ms = []
        · subst hms
          have e := ih2 rfl 0x2C
          simp only [show ¬ (0x2C = 0x7B) by decide, if_false] at e
          rw [e, parseMembers_close f name v _ jv hn hv]
        · obtain ⟨T, hT, hP⟩ := ih3 hms
          rw [hT 0x2C, parseMembers_comma f name v _ jv hn hv, hP f (by omega)]
          rfl

theorem parseObject_structEncode {fs : List (GoString × Option GoString)}
    {ms : List (GoString × JValue)} (h : Renders fs ms) :
    parseObject (structEncode fs 0x7B) = some ms := by
  obtain ⟨h1, h2, h3⟩ := structEncode_renders h
  by_cases hms : ms = []
  · subst hms
    have e := h2 rfl 0x7B
    simp only [if_true] at e
    rw [e]
    decide
  · obtain ⟨T, hT, hP⟩ := h3 hms
    have hl := h1 0x7B
    rw [hT 0x7B] at hl ⊢
    unfold parseObject
    rw [skipSpace_cons _ _ (by decide)]
    simp only
    rw [skipSpace_cons _ _ (by decide)]
    simp only
    rw [hP _ (by omega)]
    simp [skipSpace]

/-! ## RFC 3339 time stamps -/

theorem digitsVal_replicate_zero (k : Nat) : digitsVal (List.replicate k 0x30) = 0 := by
  induction k with
  | zero => rfl
  | succ k ih =>
    rw [List.replicate_succ']
    rw [digitsVal_append, ih]
    simp [digitsVal]

/-- A natural number below `10 ^ w`, written by `appendInt` in `w` digits. -/
theorem appendInt_nat (n w : Nat) (hn : n < 10 ^ w) (hw : 0 < w) :
    (appendInt (n : Int) w).length = w ∧ (∀ c ∈ appendInt (n : Int) w, isDigit c = true)
      ∧ digitsVal (appendInt (n : Int) w) = n := by
  obtain ⟨h1, _, h3, _, h5⟩ := formatUint_spec n
  have hlen := h5 w hn hw
  have e : appendInt (n : Int) w
      = List.replicate (w - (FormatUint n).length) 0x30 ++ FormatUint n := by
    unfold appendInt
    have : ¬ ((n : Int) < 0) := by omega
    simp [this]
  rw [e]
  refine ⟨by simp; omega, ?_, ?_⟩
  · intro c hc
    rw [List.mem_append] at hc
    rcases hc with hc | hc
    · rw [List.eq_of_mem_replicate hc]; decide
    · exact h1 c hc
  · rw [digitsVal_append, digitsVal_replicate_zero, h3]; simp

theorem parseUintRange_appendInt (n w lo hi : Nat) (hn : n < 10 ^ w) (hw : 0 < w)
    (hlo : lo ≤ n) (hhi : n ≤ hi) : parseUintRange (appendInt (n : Int) w) lo hi = some n := by
  obtain ⟨_, h2, h3⟩ := appendInt_nat n w hn hw
  unfold parseUintRange
  rw [h3, if_pos]
  exact ⟨by simpa [List.all_eq_true] using h2, hlo, hhi⟩

theorem trimZeros_spec (ds : GoString) :
    ∃ k, ds = trimZeros ds ++ List.replicate k 0x30
      ∧ (trimZeros ds).getLast? ≠ some 0x30 := by
  induction ds using List.reverseRecOn with
  | nil => exact ⟨0, by simp [trimZeros], by simp [trimZeros]⟩
  | append_singleton l c ih =>
    by_cases hc : c = 0x30
    · subst hc
      obtain ⟨k, h1, h2⟩ := ih
      have e : trimZeros (l ++ [0x30]) = trimZeros l := by
        simp [trimZeros, List.dropWhile]
      rw [e]
      refine ⟨k + 1, ?_, h2⟩
      rw [List.replicate_succ', ← List.append_assoc, ← h1]
    · have e : trimZeros (l ++ [c]) = l ++ [c] := by
        simp [trimZeros, List.dropWhile, hc]
      rw [e]
      refine ⟨0, by simp, ?_⟩
      simp [hc]

theorem digitsVal_append_zeros (ds : GoString) (k : Nat) :
    digitsVal (ds ++ List.replicate k 0x30) = digitsVal ds * 10 ^ k := by
  rw [digitsVal_append, digitsVal_replicate_zero]; simp

theorem list_length_four {α : Type} (l : List α) (h : l.length = 4) :
    ∃ a b c d, l = [a, b, c, d] := by
  match l, h with
  | [a, b, c, d], _ => exact ⟨a, b, c, d, rfl⟩

theorem parseFraction_appendNano (nsec : Nat) (z : GoString) (hn : nsec ≤ 999999999)
    (hz : ∃ c t, z = c :: t ∧ isDigit c = false ∧ c ≠ 0x2E) :
    parseFraction (appendNano nsec ++ z) = (nsec, z) := by
  obtain ⟨c, t, rfl, hc1, hc2⟩ := hz
  by_cases h0 : nsec = 0
  · subst h0
    simp [appendNano, parseFraction, hc2]
  · obtain ⟨hl, hd, hv⟩ := appendInt_nat nsec 9 (by omega) (by omega)
    obtain ⟨k, hk, _⟩ := trimZeros_spec (appendInt (nsec : Int) 9)
    have hlen : (trimZeros (appendInt (nsec : Int) 9)).length + k = 9 := by
      have := congrArg List.length hk
      simp only [List.length_append, List.length_replicate] at this
      omega
    have hval : digitsVal (trimZeros (appendInt (nsec : Int) 9)) * 10 ^ k = nsec := by
      rw [← digitsVal_append_zeros, ← hk, hv]
    have hdig : ∀ x ∈ trimZeros (appendInt (nsec : Int) 9), isDigit x = true := by
      intro x hx
      apply hd x
      rw [hk]
      exact List.mem_append_left _ hx
    have hA : appendNano nsec ++ c :: t
        = 0x2E :: (trimZeros (appendInt (nsec : Int) 9) ++ c :: t) := by
      simp [appendNano, h0]
    rw [hA]
    generalize trimZeros (appendInt (nsec : Int) 9) = tr at hk hlen hval hdig ⊢
    have hne : tr ≠ [] := by
      intro h
      subst h
      simp [digitsVal] at hval
      exact h0 hval.symm
    obtain ⟨e1, _⟩ := takeWhile_digits tr (c :: t) hdig
      (by intro x hx; simp at hx; subst hx; exact hc1)
    obtain ⟨d0, tr0, rfl⟩ := List.exists_cons_of_ne_nil hne
    have hd0 : isDigit d0 = true := hdig d0 (by simp)
    unfold parseFraction
    have hcond : (0x2E :: (d0 :: tr0 ++ c :: t)).head? = some 0x2E
        ∧ ((0x2E :: (d0 :: tr0 ++ c :: t)).drop 1).head?.any isDigit = true := by
      simp [hd0]
    rw [if_pos hcond]
    simp only [List.drop_one, List.tail_cons]
    rw [e1]
    have htake : (d0 :: tr0).take 9 = d0 :: tr0 := List.take_of_length_le (by omega)
    rw [htake]
    have hk9 : 9 - (d0 :: tr0).length = k := by omega
    rw [hk9, hval]
    congr 1
    rw [show 1 + (d0 :: tr0).length = (d0 :: tr0).length + 1 by omega]
    simp

theorem quoInt_natAbs (a : Int) (h : a % 60 = 0) :
    ((quoInt a 60).natAbs * 60 : Int) = (if a < 0 then -a else a)
      ∧ (quoInt a 60 < 0 ↔ a < 0) := by
  unfold quoInt
  split_ifs with h1 <;> constructor <;> omega

/-- The zone designator `appendFormatRFC3339` writes last. -/
theorem zone_text (offset : Int) (h60 : offset % 60 = 0)
    (h24 : offset ≠ 0 → (quoInt offset 60).natAbs / 60 < 24) :
    ∀ z : GoString,
      z = (if offset = 0 then [0x5A]
        else
          let zone := quoInt offset 60
          (if zone < 0 then [0x2D] else [0x2B])
            ++ appendInt (zone.natAbs / 60 : Nat) 2 ++ [0x3A] ++ appendInt (zone.natAbs % 60 : Nat) 2) →
      parseZone z = some offset ∧ ∃ c t, z = c :: t ∧ isDigit c = false ∧ c ≠ 0x2E := by
  intro z hz
  by_cases h0 : offset = 0
  · subst h0
    rw [if_pos rfl] at hz
    subst hz
    exact ⟨by decide, 0x5A, [], rfl, by decide, by decide⟩
  · rw [if_neg h0] at hz
    simp only at hz
    obtain ⟨hq1, hq2⟩ := quoInt_natAbs offset h60
    have hh := h24 h0
    obtain ⟨hl1, _, _⟩ := appendInt_nat ((quoInt offset 60).natAbs / 60) 2 (by omega) (by omega)
    have hp1 := parseUintRange_appendInt ((quoInt offset 60).natAbs / 60) 2 0 23
      (by omega) (by omega) (by omega) (by omega)
    obtain ⟨hl2, _, _⟩ := appendInt_nat ((quoInt offset 60).natAbs % 60) 2 (by omega) (by omega)
    have hp2 := parseUintRange_appendInt ((quoInt offset 60).natAbs % 60) 2 0 59
      (by omega) (by omega) (by omega) (by omega)
    obtain ⟨a0, a1, ha⟩ := List.length_eq_two.mp hl1
    obtain ⟨b0, b1, hb⟩ := List.length_eq_two.mp hl2
    rw [ha] at hp1 hz
    rw [hb] at hp2 hz
    generalize (quoInt offset 60).natAbs = zn at *
    by_cases hneg : quoInt offset 60 < 0
    · rw [if_pos hneg] at hz
      simp only [List.cons_append, List.nil_append] at hz
      subst hz
      refine ⟨?_, 0x2D, _, rfl, by decide, by decide⟩
      unfold parseZone
      simp [hp1, hp2]
      have : offset < 0 := hq2.mp hneg
      rw [if_pos this] at hq1
      omega
    · rw [if_neg hneg] at hz
      simp only [List.cons_append, List.nil_append] at hz
      subst hz
      refine ⟨?_, 0x2B, _, rfl, by decide, by decide⟩
      unfold parseZone
      simp [hp1, hp2]
      have : ¬ offset < 0 := fun h => hneg (hq2.mpr h)
      rw [if_neg this] at hq1
      omega

theorem parseRFC3339_format (t : Time) (hw : t.WellFormed) (hy0 : 0 ≤ t.year)
    (hy : t.year ≤ 9999)
    (h60 : t.offset % 60 = 0) (h24 : t.offset ≠ 0 → (quoInt t.offset 60).natAbs / 60 < 24) :
    parseRFC3339 t.appendFormatRFC3339 = some t := by
  obtain ⟨year, month, day, hour, minute, second, nsec, offset⟩ := t
  obtain ⟨hm1, hm2, hd1, hd2, hh, hmi, hs, hns⟩ := hw
  simp only at hy0 hm1 hm2 hd1 hd2 hh hmi hs hns hy h60 h24
  obtain ⟨y, rfl⟩ : ∃ y : Nat, year = (y : Int) := ⟨year.toNat, by omega⟩
  have hday31 : day ≤ 31 := by
    have : daysIn month y ≤ 31 := by
      unfold daysIn
      split_ifs
      · omega
      · have : month - 1 < 12 := by omega
        interval_cases (month - 1) <;> simp
    omega
  obtain ⟨hlY, _, _⟩ := appendInt_nat y 4 (by omega) (by omega)
  have hpY := parseUintRange_appendInt y 4 0 9999 (by omega) (by omega) (by omega) (by omega)
  obtain ⟨hlM, _, _⟩ := appendInt_nat month 2 (by omega) (by omega)
  have hpM := parseUintRange_appendInt month 2 1 12 (by omega) (by omega) hm1 hm2
  obtain ⟨hlD, _, _⟩ := appendInt_nat day 2 (by omega) (by omega)
  have hpD := parseUintRange_appendInt day 2 1 (daysIn month y) (by omega) (by omega) hd1 hd2
  obtain ⟨hlH, _, _⟩ := appendInt_nat hour 2 (by omega) (by omega)
  have hpH := parseUintRange_appendInt hour 2 0 23 (by omega) (by omega) (by omega) hh
  obtain ⟨hlMi, _, _⟩ := appendInt_nat minute 2 (by omega) (by omega)
  have hpMi := parseUintRange_appendInt minute 2 0 59 (by omega) (by omega) (by omega) hmi
  obtain ⟨hlS, _, _⟩ := appendInt_nat second 2 (by omega) (by omega)
  have hpS := parseUintRange_appendInt second 2 0 59 (by omega) (by omega) (by omega) hs
  obtain ⟨hZ1, hZ2⟩ := zone_text offset h60 h24 _ rfl
  have hF := parseFraction_appendNano nsec _ hns hZ2
  unfold Time.appendFormatRFC3339
  simp only
  generalize (if offset = 0 then [0x5A]
        else
          let zone := quoInt offset 60
          (if zone < 0 then [0x2D] else [0x2B])
            ++ appendInt (zone.natAbs / 60 : Nat) 2 ++ [0x3A]
            ++ appendInt (zone.natAbs % 60 : Nat) 2) = z at hZ1 hF ⊢
  obtain ⟨y0, y1, y2, y3, hY⟩ := list_length_four _ hlY
  obtain ⟨m0, m1, hM⟩ := List.length_eq_two.mp hlM
  obtain ⟨d0, d1, hD⟩ := List.length_eq_two.mp hlD
  obtain ⟨h0, h1, hH⟩ := List.length_eq_two.mp hlH
  obtain ⟨i0, i1, hMi⟩ := List.length_eq_two.mp hlMi
  obtain ⟨s0, s1, hS⟩ := List.length_eq_two.mp hlS
  rw [hY] at hpY ⊢
  rw [hM] at hpM ⊢
  rw [hD] at hpD ⊢
  rw [hH] at hpH ⊢
  rw [hMi] at hpMi ⊢
  rw [hS] at hpS ⊢
  unfold parseRFC3339
  simp [hpY, hpM, hpD, hpH, hpMi, hpS, hF, hZ1]

/-! ## The encoded `LogMessage` read back -/

theorem plainText_of_digits (s : GoString) (h : ∀ c ∈ s, isDigit c = true) : PlainText s := by
  intro c hc
  have := h c hc
  simp [isDigit] at this
  omega

theorem plainText_append {a b : GoString} (ha : PlainText a) (hb : PlainText b) :
    PlainText (a ++ b) := by
  intro c hc
  rw [List.mem_append] at hc
  rcases hc with h | h
  · exact ha c h
  · exact hb c h

theorem plainText_appendInt (x : Int) (w : Nat) : PlainText (appendInt x w) := by
  unfold appendInt
  refine plainText_append (plainText_append ?_ ?_) (plainText_of_digits _ (formatUint_spec _).1)
  · split_ifs
    · intro c hc; simp at hc; subst hc; decide
    · intro c hc; simp at hc
  · intro c hc
    rw [List.eq_of_mem_replicate hc]; decide

theorem plainText_appendNano (nsec : Nat) : PlainText (appendNano nsec) := by
  unfold appendNano
  split_ifs
  · intro c hc; simp at hc
  · intro c hc
    rw [List.mem_cons] at hc
    rcases hc with rfl | hc
    · decide
    · apply plainText_appendInt (nsec : Int) 9 c
      unfold trimZeros at hc
      rw [List.mem_reverse] at hc
      exact List.mem_reverse.mp (List.dropWhile_subset _ hc)

theorem plainText_time (t : Time) : PlainText t.appendFormatRFC3339 := by
  unfold Time.appendFormatRFC3339
  have one : ∀ c : Nat, (0x20 ≤ c ∧ c < 0x80 ∧ c ≠ 0x22 ∧ c ≠ 0x5C) → PlainText [c] := by
    intro c h x hx; simp at hx; subst hx; exact h
  refine plainText_append (plainText_append (plainText_append (plainText_append (plainText_append
    (plainText_append (plainText_append (plainText_append (plainText_append (plainText_append
    (plainText_append (plainText_append (plainText_appendInt _ _) (one _ (by decide)))
    (plainText_appendInt _ _)) (one _ (by decide))) (plainText_appendInt _ _))
    (one _ (by decide))) (plainText_appendInt _ _)) (one _ (by decide)))
    (plainText_appendInt _ _)) (one _ (by decide))) (plainText_appendInt _ _))
    (plainText_appendNano _)) ?_
  split_ifs
  · exact one _ (by decide)
  · simp only
    refine plainText_append (plainText_append (plainText_append ?_ (plainText_appendInt _ _))
      (one _ (by decide))) (plainText_appendInt _ _)
    split_ifs
    · exact one _ (by decide)
    · exact one _ (by decide)

theorem encodes_formatInt (i : Int) :
    Encodes (FormatInt i) (.num (decide (i < 0)) (FormatUint i.natAbs)) := by
  unfold FormatInt
  by_cases h : i < 0
  · rw [if_pos h]
    intro rest hr
    constructor
    · have hp := parseDigits_formatUint i.natAbs rest hr
      show (parseDigits (FormatUint i.natAbs ++ rest)).map _ = _
      rw [hp]
      simp [h]
    · exact skipSpace_cons _ _ (by decide)
  · rw [if_neg h]
    have := encodes_formatUint i.natAbs
    simpa [h] using this

theorem renders_string {fs : List (GoString × Option GoString)} {ms : List (GoString × JValue)}
    (key s : GoString) (hk : PlainText key) (h : Renders fs ms) :
    Renders ((key, omitEmptyString s) :: fs) (stringMember key s ++ ms) := by
  unfold omitEmptyString stringMember
  split_ifs
  · exact Renders.skip key h
  · exact Renders.emit hk (encodes_appendString s) h

theorem renders_optional {fs : List (GoString × Option GoString)}
    {ms : List (GoString × JValue)} (key v : GoString) (jv : JValue) (c : Prop) [Decidable c]
    (hk : PlainText key) (hv : Encodes v jv) (h : Renders fs ms) :
    Renders ((key, if c then none else some v) :: fs) ((if c then [] else [(key, jv)]) ++ ms) := by
  split_ifs
  · exact Renders.skip key h
  · exact Renders.emit hk hv h

theorem renders_structFields (msg : LogMessage) :
    Renders (structFields msg (0x22 :: (msg.Time.appendFormatRFC3339 ++ [0x22])))
      (decodedMembers msg) := by
  unfold structFields decodedMembers
  have r10 := renders_string (ascii "callPath") msg.CallPath (by decide) Renders.nil
  have r9 := renders_string (ascii "shortFileName") msg.ShortFile (by decide) r10
  have r8 := renders_string (ascii "longFileName") msg.LongFile (by decide) r9
  have r7 := renders_string (ascii "message") msg.Message (by decide) r8
  have r6 := renders_string (ascii "program") msg.Program (by decide) r7
  have r5 := renders_string (ascii "module") msg.Module (by decide) r6
  have r4 := renders_string (ascii "level") msg.Level (by decide) r5
  have htime : PlainText (ascii "time") := by decide
  have r3 := Renders.emit htime (encodes_plainText _ (plainText_time msg.Time)) r4
  have r2 := renders_optional (ascii "pid") _ _ (msg.PID = 0) (by decide)
    (encodes_formatInt msg.PID) r3
  have r1 := renders_optional (ascii "id") _ _ (msg.ID = 0) (by decide)
    (encodes_formatUint msg.ID) r2
  simpa using r1

/-- Whatever `Marshal` returns for a `LogMessage` is read back as the members
`decodedMembers` lists. -/
theorem parseObject_marshal (msg : LogMessage) (data : GoString)
    (h : Marshal msg = .ok data) : parseObject data = some (decodedMembers msg) := by
  unfold Marshal Time.MarshalJSON at h
  split_ifs at h
  simp only [Except.ok.injEq] at h
  rw [← h]
  exact parseObject_structEncode (renders_structFields msg)

theorem setFields_cons (m : LogMessage) (key : GoString) (v : JValue)
    (rest : List (GoString × JValue)) (m1 : LogMessage) (h : setField m key v = some m1) :
    setFields m ((key, v) :: rest) = setFields m1 rest := by
  simp [setFields, h]

theorem toValidUTF8_nil : toValidUTF8 [] = [] := rfl

theorem setFields_id (m : LogMessage) (u : Nat) (rest : List (GoString × JValue))
    (hm : m.ID = 0) (hu : u < 2 ^ 64) :
    setFields m ((if u = 0 then [] else [(ascii "id", .num false (FormatUint u))]) ++ rest)
      = setFields { m with ID := u } rest := by
  split_ifs with h
  · subst h
    rw [← hm]
    rfl
  · have : setField m (ascii "id") (.num false (FormatUint u)) = some { m with ID := u } := by
      have hu2 : u < 18446744073709551616 := hu
      simp +decide [setField, (formatUint_spec u).2.2.1, hu2]
    simp only [List.singleton_append]
    rw [setFields_cons _ _ _ _ _ this]

theorem setFields_pid (m : LogMessage) (i : Int) (rest : List (GoString × JValue))
    (hm : m.PID = 0) (hi : -(2 ^ 63) ≤ i ∧ i < 2 ^ 63) :
    setFields m ((if i = 0 then []
        else [(ascii "pid", .num (decide (i < 0)) (FormatUint i.natAbs))]) ++ rest)
      = setFields { m with PID := i } rest := by
  split_ifs with h
  · subst h
    rw [← hm]
    rfl
  · have hv : (if decide (i < 0) = true then -((digitsVal (FormatUint i.natAbs) : Nat) : Int)
        else ((digitsVal (FormatUint i.natAbs) : Nat) : Int)) = i := by
      rw [(formatUint_spec i.natAbs).2.2.1]
      by_cases hneg : i < 0
      · rw [if_pos (by simpa using hneg)]; omega
      · rw [if_neg (by simpa using hneg)]; omega
    have : setField m (ascii "pid") (.num (decide (i < 0)) (FormatUint i.natAbs))
        = some { m with PID := i } := by
      unfold setField
      simp only []
      rw [if_neg (by decide), if_pos (by decide), hv, if_pos hi]
    simp only [List.singleton_append]
    rw [setFields_cons _ _ _ _ _ this]

theorem setFields_time (m : LogMessage) (raw dec : GoString) (t : Time)
    (rest : List (GoString × JValue)) (ht : parseRFC3339 raw = some t) :
    setFields m ([(ascii "time", .str raw dec)] ++ rest) = setFields { m with Time := t } rest := by
  have : setField m (ascii "time") (.str raw dec) = some { m with Time := t } := by
    simp +decide [setField, ht]
  simp only [List.singleton_append]
  rw [setFields_cons _ _ _ _ _ this]

theorem setFields_string (m m1 : LogMessage) (key s : GoString)
    (rest : List (GoString × JValue))
    (hset : ∀ raw, setField m key (.str raw (toValidUTF8 s)) = some m1)
    (hempty : s = [] → m1 = m) :
    setFields m (stringMember key s ++ rest) = setFields m1 rest := by
  unfold stringMember
  split_ifs with h
  · rw [hempty (List.length_eq_zero.mp h)]
    rfl
  · simp only [List.singleton_append]
    rw [setFields_cons _ _ _ _ _ (hset _)]

/-- Decoding what `Marshal` wrote: every field comes back, strings with malformed UTF-8
replaced by U+FFFD, provided the integers fit their Go types and the time stamp's text
parses back to `t`. -/
theorem unmarshal_marshal (msg : LogMessage) (data : GoString) (t : Time)
    (h : Marshal msg = .ok data) (hID : msg.ID < 2 ^ 64)
    (hPID : -(2 ^ 63) ≤ msg.PID ∧ msg.PID < 2 ^ 63)
    (ht : parseRFC3339 msg.Time.appendFormatRFC3339 = some t) :
    Unmarshal data
      = some { ID := msg.ID, PID := msg.PID, Time := t, Level := toValidUTF8 msg.Level,
               Module := toValidUTF8 msg.Module, Program := toValidUTF8 msg.Program,
               Message := toValidUTF8 msg.Message, LongFile := toValidUTF8 msg.LongFile,
               ShortFile := toValidUTF8 msg.ShortFile, CallPath := toValidUTF8 msg.CallPath } := by
  unfold Unmarshal
  rw [parseObject_marshal msg data h]
  simp only
  unfold decodedMembers
  simp only [List.append_assoc]
  rw [setFields_id _ _ _ rfl hID, setFields_pid _ _ _ rfl hPID, setFields_time _ _ _ t _ ht]
  rw [setFields_string _
    (⟨msg.ID, msg.PID, t, toValidUTF8 msg.Level, [], [], [], [], [], []⟩ : LogMessage)
    (ascii "level") msg.Level _
    (fun raw => by simp +decide [setField, LogMessage.zero]) (fun h => by rw [h]; rfl)]
  rw [setFields_string _
    (⟨msg.ID, msg.PID, t, toValidUTF8 msg.Level, toValidUTF8 msg.Module, [], [], [], [], []⟩ :
      LogMessage)
    (ascii "module") msg.Module _
    (fun raw => by simp +decide [setField]) (fun h => by rw [h]; rfl)]
  rw [setFields_string _
    (⟨msg.ID, msg.PID, t, toValidUTF8 msg.Level, toValidUTF8 msg.Module,
      toValidUTF8 msg.Program, [], [], [], []⟩ : LogMessage)
    (ascii "program") msg.Program _
    (fun raw => by simp +decide [setField]) (fun h => by rw [h]; rfl)]
  rw [setFields_string _
    (⟨msg.ID, msg.PID, t, toValidUTF8 msg.Level, toValidUTF8 msg.Module,
      toValidUTF8 msg.Program, toValidUTF8 msg.Message, [], [], []⟩ : LogMessage)
    (ascii "message") msg.Message _
    (fun raw => by simp +decide [setField]) (fun h => by rw [h]; rfl)]
  rw [setFields_string _
    (⟨msg.ID, msg.PID, t, toValidUTF8 msg.Level, toValidUTF8 msg.Module,
      toValidUTF8 msg.Program, toValidUTF8 msg.Message, toValidUTF8 msg.LongFile, [], []⟩ :
      LogMessage)
    (ascii "longFileName") msg.LongFile _
    (fun raw => by simp +decide [setField]) (fun h => by rw [h]; rfl)]
  rw [setFields_string _
    (⟨msg.ID, msg.PID, t, toValidUTF8 msg.Level, toValidUTF8 msg.Module,
      toValidUTF8 msg.Program, toValidUTF8 msg.Message, toValidUTF8 msg.LongFile,
      toValidUTF8 msg.ShortFile, []⟩ : LogMessage)
    (ascii "shortFileName") msg.ShortFile _
    (fun raw => by simp +decide [setField]) (fun h => by rw [h]; rfl)]
  have hlast := setFields_string
    (⟨msg.ID, msg.PID, t, toValidUTF8 msg.Level, toValidUTF8 msg.Module,
      toValidUTF8 msg.Program, toValidUTF8 msg.Message, toValidUTF8 msg.LongFile,
      toValidUTF8 msg.ShortFile, []⟩ : LogMessage)
    (⟨msg.ID, msg.PID, t, toValidUTF8 msg.Level, toValidUTF8 msg.Module,
      toValidUTF8 msg.Program, toValidUTF8 msg.Message, toValidUTF8 msg.LongFile,
      toValidUTF8 msg.ShortFile, toValidUTF8 msg.CallPath⟩ : LogMessage)
    (ascii "callPath") msg.CallPath []
    (fun raw => by simp +decide [setField]) (fun h => by rw [h]; rfl)
  rw [List.append_nil] at hlast
  rw [hlast]
  rfl

/-! ## The JSON style -/

theorem marshal_ok_time (msg : LogMessage) (data : GoString) (h : Marshal msg = .ok data) :
    0 ≤ msg.Time.year ∧ msg.Time.year ≤ 9999
      ∧ (msg.Time.offset ≠ 0 → (quoInt msg.Time.offset 60).natAbs / 60 < 24) := by
  unfold Marshal Time.MarshalJSON at h
  split_ifs at h with h1 h2
  exact ⟨by omega, by omega, fun h0 => by
    by_contra hc
    exact h2 ⟨h0, by omega⟩⟩

theorem toValidUTF8_level (l : Level) : toValidUTF8 l.String = l.String := by
  cases l <;> rfl

theorem level_string_ne_nil (l : Level) : l.String ≠ [] := by
  cases l <;> decide

/-- The keys of the members read back from the entry `Log` builds. -/
theorem objectKeys_entryOf (rec : Record) :
    objectKeys (decodedMembers (entryOf rec))
      = (if rec.ID = 0 then [] else [ascii "id"]) ++ [ascii "time", ascii "level"]
        ++ (if rec.Module = [] then [] else [ascii "module"])
        ++ (if rec.Message = [] then [] else [ascii "message"]) := by
  have hl := level_string_ne_nil rec.Level
  unfold objectKeys decodedMembers entryOf stringMember
  simp only [LogMessage.zero, Record.Message]
  by_cases h1 : rec.ID = 0 <;> by_cases h2 : rec.Module = [] <;>
    by_cases h3 : rec.message = [] <;> simp [h1, h2, h3, hl]

theorem publishedKeys_json {σ τ ε : Type} (b : MQTTBackend σ τ ε) (level : Level)
    (calldepth : Int) (rec : Record) (w : σ) (hs : b.style = StyleJSON) :
    publishedKeys (b.Log level calldepth rec w).trace
      = if serializationFails rec = true then []
        else [some (objectKeys (decodedMembers (entryOf rec)))] := by
  unfold publishedKeys serializationFails
  cases hM : Marshal (entryOf rec) with
  | error err =>
    rw [log_of_render_error b level calldepth rec w err (by rw [render_json b _ _ hs, hM])]
    rfl
  | ok data =>
    rw [publishedPayloads_of_render b level calldepth rec w data
      (by rw [render_json b _ _ hs, hM])]
    simp [parseObject_marshal _ _ hM]

/-- C5: when the style is `JSON`, every payload `Log` publishes is a JSON object whose keys
are among `id`, `time`, `level`, `module`, `message`; none of the keys `pid`, `program`,
`longFileName`, `shortFileName`, `callPath` occurs in it, for every record, level, call
depth and client. -/
theorem unpopulated_keys_absent {σ τ ε : Type} (b : MQTTBackend σ τ ε) (level : Level)
    (calldepth : Int) (rec : Record) (w : σ) (hs : b.style = StyleJSON) :
    ∀ p ∈ publishedPayloads (b.Log level calldepth rec w).trace,
      ∃ ms, parseObject p = some ms
        ∧ (∀ k ∈ objectKeys ms, k ∈ populatedKeys)
        ∧ (∀ k ∈ unpopulatedKeys, k ∉ objectKeys ms) := by
  intro p hp
  cases hM : Marshal (entryOf rec) with
  | error err =>
    rw [log_of_render_error b level calldepth rec w err (by rw [render_json b _ _ hs, hM])]
      at hp
    simp [publishedPayloads] at hp
  | ok data =>
    rw [publishedPayloads_of_render b level calldepth rec w data
      (by rw [render_json b _ _ hs, hM])] at hp
    simp only [List.mem_singleton] at hp
    subst hp
    refine ⟨_, parseObject_marshal _ _ hM, ?_, ?_⟩
    · intro k hk
      rw [objectKeys_entryOf] at hk
      unfold populatedKeys
      simp only [List.mem_append, List.mem_cons, List.mem_singleton] at hk ⊢
      rcases hk with ((h | h) | h) | h
      · split_ifs at h <;> simp_all
      · rcases h with h | h | h
        · simp [h]
        · simp [h]
        · simp at h
      · split_ifs at h <;> simp_all
      · split_ifs at h <;> simp_all
    · intro k hk hk2
      rw [objectKeys_entryOf] at hk2
      have hmem : k ∈ populatedKeys := by
        unfold populatedKeys
        simp only [List.mem_append, List.mem_cons, List.mem_singleton] at hk2 ⊢
        rcases hk2 with ((h | h) | h) | h
        · split_ifs at h <;> simp_all
        · rcases h with h | h | h
          · simp [h]
          · simp [h]
          · simp at h
        · split_ifs at h <;> simp_all
        · split_ifs at h <;> simp_all
      have hdisj : ∀ x ∈ unpopulatedKeys, x ∉ populatedKeys := by decide
      exact hdisj k hk hmem

set_option maxRecDepth 100000 in
theorem unpopulated_keys_absent_witness :
    (NewBackend (constClient false) (ascii "logs") StyleJSON).style = StyleJSON
      ∧ ∀ p ∈ publishedPayloads ((NewBackend (constClient false) (ascii "logs") StyleJSON).Log
          .INFO 0 (sampleRecord (ascii "started") sampleTime) none).trace,
        ∃ ms, parseObject p = some ms
          ∧ (∀ k ∈ objectKeys ms, k ∈ populatedKeys)
          ∧ (∀ k ∈ unpopulatedKeys, k ∉ objectKeys ms) :=
  ⟨rfl, unpopulated_keys_absent _ .INFO 0 _ none rfl⟩

/-- C3 as stated fails: a record whose message is the single byte 0xFF (not valid UTF-8)
is serialized under style `JSON` without error, and decoding the published payload yields
the message U+FFFD (bytes EF BF BD), not the record's message. -/
theorem invalid_utf8_not_restored :
    readBack ((NewBackend (constClient false) (ascii "logs") StyleJSON).Log .INFO 0
        (sampleRecord [0xFF] sampleTime) none).trace
      = [some ⟨42, 0, sampleTime, ascii "INFO", ascii "core", [], [0xEF, 0xBF, 0xBD], [], [], []⟩]
      ∧ (sampleRecord [0xFF] sampleTime).Message = [0xFF] := by
  constructor
  · rfl
  · rfl

/-- A second way C3 fails: a zone offset of 30 seconds is written as `+00:00` and read
back as offset 0. -/
theorem odd_offset_not_restored :
    readBack ((NewBackend (constClient false) (ascii "logs") StyleJSON).Log .INFO 0
        (sampleRecord (ascii "ping") ⟨2017, 3, 4, 5, 6, 7, 0, 30⟩) none).trace
      = [some ⟨42, 0, ⟨2017, 3, 4, 5, 6, 7, 0, 0⟩, ascii "INFO", ascii "core", [],
          ascii "ping", [], [], []⟩] := by
  rfl

/-- C3, amended: under style `JSON`, for every record whose serialization succeeds, whose
module and message are valid UTF-8 and whose zone offset is a whole number of minutes
(the record being well formed: `ID` a uint64, the time a calendar reading), decoding the
one published payload into a `LogMessage` yields exactly the entry built from the record:
`id`, `time`, `level`, `module`, `message` equal to `rec.ID`, `rec.Time`,
`rec.Level.String()`, `rec.Module`, `rec.Message()`, and every other field zero. -/
theorem json_round_trip {σ τ ε : Type} (b : MQTTBackend σ τ ε) (level : Level)
    (calldepth : Int) (rec : Record) (w : σ) (data : GoString) (hs : b.style = StyleJSON)
    (hok : Marshal (entryOf rec) = .ok data) (hID : rec.ID < 2 ^ 64)
    (hT : rec.Time.WellFormed) (h60 : rec.Time.offset % 60 = 0)
    (hmod : ValidString rec.Module = true) (hmsg : ValidString rec.Message = true) :
    readBack (b.Log level calldepth rec w).trace
      = [some { LogMessage.zero with
          ID := rec.ID, Time := rec.Time, Level := rec.Level.String, Module := rec.Module,
          Message := rec.Message }] := by
  obtain ⟨hy0, hy, h24⟩ := marshal_ok_time _ _ hok
  have ht := parseRFC3339_format rec.Time hT hy0 hy h60 h24
  have hPID : -(2 ^ 63) ≤ (entryOf rec).PID ∧ (entryOf rec).PID < 2 ^ 63 := by
    show -(2 ^ 63) ≤ (0 : Int) ∧ (0 : Int) < 2 ^ 63
    decide
  have hU := unmarshal_marshal (entryOf rec) data rec.Time hok hID hPID ht
  unfold readBack
  rw [publishedPayloads_of_render b level calldepth rec w data
    (by rw [render_json b _ _ hs, hok])]
  simp only [List.map_cons, List.map_nil]
  rw [hU]
  simp only [entryOf, LogMessage.zero, toValidUTF8_nil, toValidUTF8_level,
    toValidUTF8_of_valid _ hmod, toValidUTF8_of_valid _ hmsg]

set_option maxRecDepth 100000 in
theorem json_round_trip_witness :
    (NewBackend (constClient false) (ascii "logs") StyleJSON).style = StyleJSON
      ∧ Marshal (entryOf (sampleRecord (ascii "started") sampleTime))
        = .ok ([0x7B] ++ ascii ("\"id\":42,\"time\":\"2017-03-04T05:06:07.5+01:00\","
            ++ "\"level\":\"INFO\",\"module\":\"core\",\"message\":\"started\"") ++ [0x7D])
      ∧ (sampleRecord (ascii "started") sampleTime).ID < 2 ^ 64
      ∧ (sampleRecord (ascii "started") sampleTime).Time.WellFormed
      ∧ (sampleRecord (ascii "started") sampleTime).Time.offset % 60 = 0
      ∧ ValidString (sampleRecord (ascii "started") sampleTime).Module = true
      ∧ ValidString (sampleRecord (ascii "started") sampleTime).Message = true
      ∧ readBack ((NewBackend (constClient false) (ascii "logs") StyleJSON).Log .INFO 0
          (sampleRecord (ascii "started") sampleTime) none).trace
        = [some ⟨42, 0, sampleTime, ascii "INFO", ascii "core", [], ascii "started", [], [],
            []⟩] :=
  ⟨rfl, rfl, by decide, by decide, by decide, by decide, by decide,
    json_round_trip (NewBackend (constClient false) (ascii "logs") StyleJSON) .INFO 0
      (sampleRecord (ascii "started") sampleTime) none _ rfl rfl (by decide) (by decide)
      (by decide) (by decide) (by decide)⟩

/-- The scenario of C3: the published object has exactly the keys `id`, `time`, `level`,
`module`, `message`. -/
theorem scenario_keys :
    publishedKeys ((NewBackend (constClient false) (ascii "logs") StyleJSON).Log .INFO 0
        (sampleRecord (ascii "started") sampleTime) none).trace
      = [some [ascii "id", ascii "time", ascii "level", ascii "module", ascii "message"]] := by
  rfl

/-- C4 at its failing input: under style `JSON` a record with the zero time stamp is
published with a `time` key, holding the text `0001-01-01T00:00:00Z`. -/
theorem zero_time_not_omitted :
    publishedPayloads ((NewBackend (constClient false) (ascii "logs") StyleJSON).Log .INFO 0
        (sampleRecord (ascii "ping") Time.zero) none).trace
      = [[0x7B] ++ ascii ("\"id\":42,\"time\":\"0001-01-01T00:00:00Z\","
            ++ "\"level\":\"INFO\",\"module\":\"core\",\"message\":\"ping\"") ++ [0x7D]]
      ∧ publishedKeys ((NewBackend (constClient false) (ascii "logs") StyleJSON).Log .INFO 0
          (sampleRecord (ascii "ping") Time.zero) none).trace
        = [some [ascii "id", ascii "time", ascii "level", ascii "module", ascii "message"]] := by
  constructor
  · rfl
  · rfl

/-- The `time` key is never omitted: whenever serialization succeeds the published object
has it, and the other four populated keys are present exactly when their field is not
zero or empty. -/
theorem published_keys {σ τ ε : Type} (b : MQTTBackend σ τ ε) (level : Level)
    (calldepth : Int) (rec : Record) (w : σ) (hs : b.style = StyleJSON)
    (hok : serializationFails rec = false) :
    publishedKeys (b.Log level calldepth rec w).trace
      = [some ((if rec.ID = 0 then [] else [ascii "id"]) ++ [ascii "time", ascii "level"]
          ++ (if rec.Module = [] then [] else [ascii "module"])
          ++ (if rec.Message = [] then [] else [ascii "message"]))] := by
  rw [publishedKeys_json b level calldepth rec w hs, hok, objectKeys_entryOf]
  simp

end Mqttlog
